import Mathlib

/-!
# Verification of the EveryState CSS core

A shallow embedding of the three reactive subsystems of the repository
(`designSystem.js`, the typed-CSS validator of `styleEngine.js`, and
`relationalCSS.js`), together with proofs of the frozen claims about them.

Conventions of the embedding:

* JavaScript store values are modelled by `JSVal` (a string or `null`);
  a store path that was never written reads back as `Option.none`
  (JavaScript `undefined`).
* JavaScript `Map` and `Set` objects are modelled by insertion-ordered
  association lists / lists without duplicates, matching the iteration
  order semantics of the originals.
* JavaScript numbers are idealised as exact rationals `ℚ`; the decimal
  literals appearing in the sources are all exactly representable.
-/

namespace EveryStateCSS

/-- A JavaScript value held in the store: either `null` or a string.
(The claims under verification only ever move strings and `null`
through the store, so other JS value kinds are not modelled.) -/
inductive JSVal where
  | vNull : JSVal
  | vStr : String → JSVal
deriving DecidableEq, Repr

/-- JS truthiness of a `JSVal`: `null` and the empty string are falsy. -/
def JSVal.truthy : JSVal → Bool
  | .vNull => false
  | .vStr s => s ≠ ""

/-- JS `String(v)` applied to a store value. -/
def JSVal.toStr : JSVal → String
  | .vNull => "null"
  | .vStr s => s

/-! ## Association lists (JS `Map` semantics: insertion order, in-place update) -/

/-- Lookup in an insertion-ordered association list (JS `Map.get`). -/
def alookup {α : Type} : List (String × α) → String → Option α
  | [], _ => none
  | (k, v) :: rest, key => if k = key then some v else alookup rest key

/-- JS `Map.set`: update an existing key in place, else append at the end. -/
def aset {α : Type} : List (String × α) → String → α → List (String × α)
  | [], key, v => [(key, v)]
  | (k, w) :: rest, key, v =>
      if k = key then (k, v) :: rest else (k, w) :: aset rest key v

/-- JS `Map.delete`: remove the entry for a key (if present). -/
def aerase {α : Type} : List (String × α) → String → List (String × α)
  | [], _ => []
  | (k, w) :: rest, key => if k = key then rest else (k, w) :: aerase rest key

/-- JS `Set.add` on a duplicate-free list: append if not yet present. -/
def listAdd (l : List String) (x : String) : List String :=
  if x ∈ l then l else l ++ [x]

/-! ## Design System (`src/designSystem.js`)

The design system holds a binding graph `bindings : Map<tokenPath, Set<stylePath>>`
and one store subscription per token path (`unsubs : Map<tokenPath, Function>`).
The store itself is external to the repository; its behaviour is taken from the
spec's store contract (synchronous `set` that notifies every matching
subscriber, in subscription order). -/

/-- State of one `createDesignSystem` instance together with its store:
`store` is the path-addressed value map, `bindings` the token → bound style
paths map (`Map<tokenPath, Set<stylePath>>`), `unsubs` the set of token paths
that currently own a store subscription (keys of `Map<tokenPath, Function>`),
in subscription order. -/
structure DSState where
  ns : String
  store : List (String × JSVal)
  bindings : List (String × List String)
  unsubs : List String
deriving Repr

/-- JS `String.prototype.startsWith`, computed on the character lists. -/
def jsStartsWith (s pre : String) : Bool :=
  pre.data.isPrefixOf s.data

/-- `fullTokenPath` from `designSystem.js`: prepend the namespace unless the
token path already starts with it. -/
def fullTokenPath (ns tokenPath : String) : String :=
  if jsStartsWith tokenPath (ns ++ ".") then tokenPath else ns ++ "." ++ tokenPath

/-- Modelled from the spec: the store's `set` is synchronous and notifies every
subscriber whose registered path matches, in subscription order.  The design
system's only subscribers are the per-token callbacks installed by
`ensureSubscription`, each of which writes the received value to every style
path currently bound to its token.  `fuel` bounds the depth of chained
notifications (the JS original has no such bound and would exhaust the call
stack on a cyclic binding graph; every claim proved below holds for every
positive fuel, hence for every terminating JS execution). -/
def dsSet : Nat → DSState → String → JSVal → DSState
  | 0, s, p, v => { s with store := aset s.store p v }
  | fuel + 1, s, p, v =>
      let s1 : DSState := { s with store := aset s.store p v }
      -- subscribed token paths whose full store path equals the written path
      let firing := s1.unsubs.filter (fun t => fullTokenPath s1.ns t = p)
      firing.foldl
        (fun acc t =>
          match alookup acc.bindings t with
          | some targets => targets.foldl (fun a sp => dsSet fuel a sp v) acc
          | none => acc)
        s1

/-- `bind(stylePath, tokenPath)` from `designSystem.js`: add the style path to
the token's binding set (creating it if needed), ensure the token subscription
exists, then write the token's current value (if defined) to the style path. -/
def dsBind (fuel : Nat) (s : DSState) (stylePath tokenPath : String) : DSState :=
  let b :=
    match alookup s.bindings tokenPath with
    | some targets => aset s.bindings tokenPath (listAdd targets stylePath)
    | none => s.bindings ++ [(tokenPath, [stylePath])]
  let u := if tokenPath ∈ s.unsubs then s.unsubs else s.unsubs ++ [tokenPath]
  let s1 : DSState := { s with bindings := b, unsubs := u }
  match alookup s1.store (fullTokenPath s1.ns tokenPath) with
  | some cur => dsSet fuel s1 stylePath cur
  | none => s1

/-- The unbind closure returned by `bind`: remove the style path from the
token's binding set; when the set empties, drop the binding entry and release
the token's subscription. -/
def dsUnbind (s : DSState) (stylePath tokenPath : String) : DSState :=
  match alookup s.bindings tokenPath with
  | none => s
  | some targets =>
      let targets' := targets.erase stylePath
      if targets' = [] then
        { s with bindings := aerase s.bindings tokenPath,
                 unsubs := s.unsubs.erase tokenPath }
      else
        { s with bindings := aset s.bindings tokenPath targets' }

/-- `setToken(tokenPath, value)`: write the value at the token's full path
(all propagation happens through the store subscription inside `dsSet`). -/
def dsSetToken (fuel : Nat) (s : DSState) (tokenPath : String) (v : JSVal) : DSState :=
  dsSet fuel s (fullTokenPath s.ns tokenPath) v

/-- `destroy()`: release every subscription and clear the binding graph. -/
def dsDestroy (s : DSState) : DSState :=
  { s with unsubs := [], bindings := [] }

/-- One externally observable operation on a design-system instance.
`extSet` covers both `setTokens` leaf writes and arbitrary store writes by
other collaborators (they only touch the store). -/
inductive DSOp where
  | opBind (stylePath tokenPath : String)
  | opUnbind (stylePath tokenPath : String)
  | opSetToken (tokenPath : String) (v : JSVal)
  | extSet (path : String) (v : JSVal)
  | opDestroy

/-- Apply one operation. -/
def dsApply (fuel : Nat) (s : DSState) : DSOp → DSState
  | .opBind sp tp => dsBind fuel s sp tp
  | .opUnbind sp tp => dsUnbind s sp tp
  | .opSetToken tp v => dsSetToken fuel s tp v
  | .extSet p v => dsSet fuel s p v
  | .opDestroy => dsDestroy s

/-- A fresh `createDesignSystem` instance over an arbitrary initial store
(the constructor's `setDeep` token initialisation is a sequence of plain
store writes, so arbitrary initial stores subsume it). -/
def dsInit (ns : String) (store0 : List (String × JSVal)) : DSState :=
  { ns := ns, store := store0, bindings := [], unsubs := [] }

/-- Run a list of operations from a fresh instance. -/
def dsRun (fuel : Nat) (ns : String) (store0 : List (String × JSVal))
    (ops : List DSOp) : DSState :=
  ops.foldl (dsApply fuel) (dsInit ns store0)

/-- The style paths currently bound to a token. -/
def dsTargets (s : DSState) (tokenPath : String) : List String :=
  (alookup s.bindings tokenPath).getD []

/-! ### The design-system bookkeeping invariant (claim C2) -/

/-- The bookkeeping invariant of `createDesignSystem`: binding-map keys and
subscription list are duplicate-free (each token path owns at most one store
subscription), every binding set is non-empty, and a token path owns a
subscription exactly when its binding set exists. -/
def DSInv (s : DSState) : Prop :=
  (s.bindings.map Prod.fst).Nodup ∧ s.unsubs.Nodup ∧
    (∀ t ts, alookup s.bindings t = some ts → ts ≠ []) ∧
    (∀ t, t ∈ s.unsubs ↔ (alookup s.bindings t).isSome)

/-! ## Typed CSS violation log (`src/styleEngine.js`, `report` / `getViolations`) -/

/-- A schema violation entry `{ component, property, message, timestamp }`.
`Date.now()` timestamps are passed in explicitly. -/
structure Violation where
  component : String
  property : String
  message : String
  timestamp : Nat
deriving DecidableEq, Repr

/-- The violation-log update performed by `report`: push the entry, then
shift the oldest entry off the front if the log exceeds 200 entries. -/
def reportLog (log : List Violation) (entry : Violation) : List Violation :=
  let l := log ++ [entry]
  if 200 < l.length then l.drop 1 else l

/-- One operation touching the violation log (`report` via the validators,
or `clearViolations`; `destroy` empties the log just like `clearViolations`). -/
inductive VLogOp where
  | logReport (entry : Violation)
  | logClear

def vlogApply (log : List Violation) : VLogOp → List Violation
  | .logReport entry => reportLog log entry
  | .logClear => []

/-- Run violation-log operations from the initial empty log. -/
def vlogRun (ops : List VLogOp) : List Violation :=
  ops.foldl vlogApply []

/-- `getViolations(limit = 50)` returns `violations.slice(-limit)`.
JS `slice(-limit)` with `limit = 0` is `slice(0)`: the whole array. -/
def getViolations (log : List Violation) (limit : Nat) : List Violation :=
  if limit = 0 then log else log.drop (log.length - limit)

/-! ## Length, number and color literal utilities
(`src/relationalCSS.js` and the validators of `src/styleEngine.js`) -/

/-- The length units of `LENGTH_RE` (identical in both source files). -/
def UNITS : List String :=
  ["px", "rem", "em", "%", "vh", "vw", "vmin", "vmax", "ch", "ex", "cm", "mm",
   "in", "pt", "pc"]

/-- Longest run of decimal digits at the front (`\d+`, greedy). -/
def takeDigits : List Char → List Char × List Char
  | [] => ([], [])
  | c :: cs =>
      if c.isDigit then
        let p := takeDigits cs
        (c :: p.1, p.2)
      else ([], c :: cs)

def digitVal (c : Char) : Nat := c.toNat - 48

/-- Value of a digit string, most significant first. -/
def charsToNat (l : List Char) : Nat :=
  l.foldl (fun a c => 10 * a + digitVal c) 0

/-- Whitespace for the purposes of JS `trim` / `split(/\s+/)` (the ASCII
whitespace characters; no claim involves exotic Unicode whitespace). -/
def isWsChar (c : Char) : Bool :=
  c = ' ' || c = '\t' || c = '\n' || c = '\r' || c = '\x0b' || c = '\x0c'

/-- JS `String.prototype.trim` on the character list. -/
def jsTrim (l : List Char) : List Char :=
  ((l.dropWhile isWsChar).reverse.dropWhile isWsChar).reverse

/-- The `-?` sign step of the `LENGTH_RE` match. -/
def splitSign (l : List Char) : Bool × List Char :=
  match l with
  | c :: r => if c = '-' then (true, r) else (false, c :: r)
  | [] => (false, [])

/-- The anchored `LENGTH_RE` match
`^(-?\d+(\.\d+)?)(px|rem|...|pc)$` as a deterministic parser: optional minus,
one or more digits, an optional dot-and-digits fraction, then exactly one of
the units consuming the rest of the input.  (The regex is anchored on both
ends and no unit starts with a digit or a dot, so greedy matching is
deterministic.)  Returns `parseFloat(match[1])` — exact over `ℚ` — and the
unit. -/
def parseLenChars (l : List Char) : Option (ℚ × String) :=
  let sign := splitSign l
  let p1 := takeDigits sign.2
  if p1.1 = [] then none
  else
    let signVal : ℚ → ℚ := fun q => if sign.1 then -q else q
    match p1.2 with
    | c :: r =>
        if c = '.' then
          let p2 := takeDigits r
          if p2.1 = [] then none
          else
            let v : ℚ := (charsToNat p1.1 : ℚ) +
              (charsToNat p2.1 : ℚ) / ((10 : ℚ) ^ p2.1.length)
            if String.mk p2.2 ∈ UNITS then some (signVal v, String.mk p2.2)
            else none
        else
          if String.mk (c :: r) ∈ UNITS then
            some (signVal (charsToNat p1.1 : ℚ), String.mk (c :: r))
          else none
    | [] => none

/-- `parseLength` from `relationalCSS.js`: trim, then match `LENGTH_RE`.
(The `typeof value !== 'string'` guard is handled at each call site by the
`JSVal` type.) -/
def parseLength (value : String) : Option (ℚ × String) :=
  parseLenChars (jsTrim value.data)

/-- The character of a decimal digit. -/
def dchar (d : Nat) : Char := Char.ofNat (48 + d)

/-- Digit characters of `n`, most significant first, empty for zero. -/
def natToCharsRaw (n : Nat) : List Char :=
  (Nat.digits 10 n).reverse.map dchar

/-- JS decimal rendering of a natural number (zero prints `0`). -/
def natToChars (n : Nat) : List Char :=
  if n = 0 then ['0'] else natToCharsRaw n

def padLeftZeros (w : Nat) (l : List Char) : List Char :=
  List.replicate (w - l.length) '0' ++ l

def stripTrailingZeros (l : List Char) : List Char :=
  (l.reverse.dropWhile (fun c => c = '0')).reverse

/-- Modelled from JS number-to-string: the canonical decimal rendering of
`m / 10^k` (shortest form: no leading zeros, no trailing fractional zeros,
`-0` prints as `0`), which is what the template literal `${num}` produces
for such terminating decimals. -/
def decimalOfInt (m : Int) (k : Nat) : String :=
  let e := m.natAbs
  let ip := e / 10 ^ k
  let fp := e % 10 ^ k
  let fracC := stripTrailingZeros (padLeftZeros k (natToCharsRaw fp))
  String.mk ((if m < 0 then ['-'] else []) ++ natToChars ip ++
    (if fracC = [] then [] else '.' :: fracC))

/-- `formatLength` from `relationalCSS.js`:
`Math.round(num * 10000) / 10000` then `${rounded}${unit}`.  Mathlib's
`round` is `⌊x + 1/2⌋`, the same round-half-up rule as `Math.round`. -/
def formatLength (num : ℚ) (unit : String) : String :=
  decimalOfInt (round (num * 10000)) 4 ++ unit

/-- `LENGTH_UNIT_TO_PX` from `styleEngine.js`. -/
def LENGTH_UNIT_TO_PX : List (String × ℚ) :=
  [("px", 1), ("rem", 16), ("em", 16), ("pt", 1333/1000), ("cm", 37795/1000),
   ("mm", 37795/10000), ("in", 96)]

/-- `lengthToPx` from `styleEngine.js`: anchored `LENGTH_RE` match (no trim)
then the fixed unit table; `null` when the unit is unmapped. -/
def lengthToPx (value : String) : Option ℚ :=
  match parseLenChars value.data with
  | none => none
  | some (num, unit) =>
      match alookup LENGTH_UNIT_TO_PX unit with
      | some factor => some (num * factor)
      | none => none

/-- JS `parseFloat`: skip leading whitespace, optional sign, digits with an
optional fraction and an optional exponent; `none` models `NaN` (no numeric
prefix).  `Infinity` literals are not modelled (no claim involves them). -/
def parseFloatJS (s : String) : Option ℚ :=
  let l := s.data.dropWhile isWsChar
  let sign : Bool × List Char :=
    match l with
    | '-' :: r => (true, r)
    | '+' :: r => (false, r)
    | _ => (false, l)
  let p1 := takeDigits sign.2
  let pf : List Char × List Char :=
    match p1.2 with
    | '.' :: r => takeDigits r
    | _ => ([], p1.2)
  if p1.1 = [] ∧ pf.1 = [] then none
  else
    let base : ℚ := (charsToNat p1.1 : ℚ) + (charsToNat pf.1 : ℚ) / ((10 : ℚ) ^ pf.1.length)
    let ex : Int :=
      match pf.2 with
      | 'e' :: r | 'E' :: r =>
          let esign : Bool × List Char :=
            match r with
            | '-' :: r2 => (true, r2)
            | '+' :: r2 => (false, r2)
            | _ => (false, r)
          let pe := takeDigits esign.2
          if pe.1 = [] then 0
          else if esign.1 then -(charsToNat pe.1 : Int) else (charsToNat pe.1 : Int)
      | _ => 0
    some ((if sign.1 then -base else base) * (10 : ℚ) ^ ex)

/-! ## Typed CSS validators (`src/styleEngine.js`, `createTypedCSS`) -/

/-- The single-quote character used in the source's error messages. -/
def sq : String := String.mk [Char.ofNat 39]

/-- `startsWith` on a character list. -/
def jsStartsWithL (l : List Char) (pre : String) : Bool :=
  pre.data.isPrefixOf l

/-- A constraint `{ type, ...parameters }`.  The JS object stores length
bounds (length-literal strings) and number bounds (numbers) in the same
`min`/`max` fields; they are modelled as separate optional fields, which is
behaviour-equivalent: the length validator reads bounds through `lengthToPx`
(a numeric bound never matches `LENGTH_RE`, i.e. behaves as absent) and the
number validator compares numerically. -/
structure Constraint where
  ctype : String
  minLen : Option String := none
  maxLen : Option String := none
  minNum : Option ℚ := none
  maxNum : Option ℚ := none
  values : Option (List String) := none
  maxLayers : Option Nat := none
deriving DecidableEq, Repr

def COLOR_NAMES : List String :=
  ["black", "white", "red", "green", "blue", "yellow", "orange", "purple",
   "pink", "gray", "grey", "cyan", "magenta", "brown", "olive", "navy",
   "teal", "maroon", "aqua", "lime", "silver", "fuchsia"]

def isHexDigit (c : Char) : Bool :=
  c.isDigit || ('a' ≤ c && c ≤ 'f')

/-- The unanchored prefix test `COLOR_RE.test(v)` on an already lowercased,
trimmed string: `^(#([0-9a-f]{3,8})|rgb(a)?\(|hsl(a)?\(|transparent|
currentColor|inherit|initial|unset|var\()/i`.  A prefix match of
`#[0-9a-f]{3,8}` succeeds exactly when at least three hex digits follow
the hash. -/
def colorReTest (l : List Char) : Bool :=
  match l with
  | '#' :: rest => 3 ≤ (rest.takeWhile isHexDigit).length
  | _ =>
      jsStartsWithL l "rgb(" || jsStartsWithL l "rgba(" ||
      jsStartsWithL l "hsl(" || jsStartsWithL l "hsla(" ||
      jsStartsWithL l "transparent" || jsStartsWithL l "currentcolor" ||
      jsStartsWithL l "inherit" || jsStartsWithL l "initial" ||
      jsStartsWithL l "unset" || jsStartsWithL l "var("

/-- `isValidColor` from `styleEngine.js`. -/
def isValidColor (value : String) : Bool :=
  let v := (jsTrim value.data).map Char.toLower
  colorReTest v || String.mk v ∈ COLOR_NAMES

/-- `value.trim().split(/\s+/)`: split the (already trimmed) characters on
whitespace runs; JS yields `[""]` for the empty string. -/
def splitWsAux : List Char → List Char → List (List Char)
  | [], acc => if acc = [] then [] else [acc.reverse]
  | c :: cs, acc =>
      if isWsChar c then
        if acc = [] then splitWsAux cs [] else acc.reverse :: splitWsAux cs []
      else splitWsAux cs (c :: acc)

def splitWsJS (l : List Char) : List (List Char) :=
  if l = [] then [[]] else splitWsAux l []

/-- `isValidLength` from `styleEngine.js`: every whitespace-separated part is
a `LENGTH_RE` match, `0`, `auto`, `inherit`, `initial`, `unset`, or a
`var(`-reference. -/
def isValidLength (value : String) : Bool :=
  let parts := splitWsJS (jsTrim value.data)
  parts.all (fun p =>
    (parseLenChars p).isSome || String.mk p = "0" || String.mk p = "auto" ||
    String.mk p = "inherit" || String.mk p = "initial" ||
    String.mk p = "unset" || jsStartsWithL p "var(")

/-- `isValidNumber`: `!isNaN(parseFloat(value))`. -/
def isValidNumber (value : String) : Bool :=
  (parseFloatJS value).isSome

/-- Decimal rendering of the rationals appearing in error messages (every
JS number is a terminating decimal; the search bound is irrelevant for the
literals reachable from the sources). -/
def ratToString (q : ℚ) : String :=
  match (List.range 41).find? (fun k => (q * (10 : ℚ) ^ k).den = 1) with
  | some k => decimalOfInt (q * (10 : ℚ) ^ k).num k
  | none => "<nonterminating>"

def natToString (n : Nat) : String := String.mk (natToChars n)

/-- `VALIDATORS.color`. -/
def colorValidatorErr (value : String) (_c : Constraint) : Option String :=
  if isValidColor value then none
  else some (sq ++ value ++ sq ++
    " is not a valid color. Use hex (#fff), rgb(), hsl(), or a named color.")

/-- `VALIDATORS.length`: syntax check, then min/max compared through
`lengthToPx` (bounds whose px conversion fails are skipped, as is the whole
range check when the value itself has no px conversion, e.g. compound
values). -/
def lengthValidatorErr (value : String) (c : Constraint) : Option String :=
  if ¬ isValidLength value then
    some (sq ++ value ++ sq ++ " is not a valid CSS length.")
  else if c.minLen.isSome || c.maxLen.isSome then
    match lengthToPx value with
    | none => none
    | some px =>
        match
          (match c.minLen with
           | some mn =>
               (lengthToPx mn).bind (fun minPx =>
                 if px < minPx then
                   some (sq ++ value ++ sq ++ " is below minimum " ++ sq ++ mn ++ sq ++ ".")
                 else none)
           | none => none) with
        | some e => some e
        | none =>
            match c.maxLen with
            | some mx =>
                (lengthToPx mx).bind (fun maxPx =>
                  if maxPx < px then
                    some (sq ++ value ++ sq ++ " exceeds maximum " ++ sq ++ mx ++ sq ++ ".")
                  else none)
            | none => none
  else none

/-- `VALIDATORS.enum`: `!constraint.values || !constraint.values.includes(value)`
is an error (a missing list interpolates as `undefined`). -/
def enumValidatorErr (value : String) (c : Constraint) : Option String :=
  match c.values with
  | none =>
      some (sq ++ value ++ sq ++ " is not allowed. Expected one of: undefined.")
  | some vs =>
      if value ∈ vs then none
      else some (sq ++ value ++ sq ++ " is not allowed. Expected one of: " ++
        String.intercalate ", " vs ++ ".")

/-- `VALIDATORS.number`: parseable as a float and inside the optional
inclusive bounds. -/
def numberValidatorErr (value : String) (c : Constraint) : Option String :=
  match parseFloatJS value with
  | none => some (sq ++ value ++ sq ++ " is not a valid number.")
  | some num =>
      match c.minNum with
      | some mn =>
          if num < mn then
            some (value ++ " is below minimum " ++ ratToString mn ++ ".")
          else
            match c.maxNum with
            | some mx =>
                if mx < num then
                  some (value ++ " exceeds maximum " ++ ratToString mx ++ ".")
                else none
            | none => none
      | none =>
          match c.maxNum with
          | some mx =>
              if mx < num then
                some (value ++ " exceeds maximum " ++ ratToString mx ++ ".")
              else none
          | none => none

/-- `VALIDATORS.shadow`: comma-separated layer count against `maxLayers`.
(`split(',').length` is one more than the number of commas.) -/
def shadowValidatorErr (value : String) (c : Constraint) : Option String :=
  match c.maxLayers with
  | some maxL =>
      let layers := (value.data.filter (fun ch => ch = ',')).length + 1
      if maxL < layers then
        some ("Shadow has " ++ natToString layers ++ " layers, maximum is " ++
          natToString maxL ++ ".")
      else none
  | none => none

/-- The `VALIDATORS` table: `none` means no validator is registered for this
type (the caller passes unknown types through as valid); `some e` is the
validator's return value (`null` = no error). -/
def runValidator (ctype : String) (value : String) (c : Constraint) :
    Option (Option String) :=
  if ctype = "color" then some (colorValidatorErr value c)
  else if ctype = "length" then some (lengthValidatorErr value c)
  else if ctype = "enum" then some (enumValidatorErr value c)
  else if ctype = "number" then some (numberValidatorErr value c)
  else if ctype = "string" then some none
  else if ctype = "shadow" then some (shadowValidatorErr value c)
  else none

/-- State of one `createTypedCSS` instance: the live `schema` object, the
introspection mirror the constructor and `defineComponent` write under the
store's `schema.*` paths (Modelled from the spec: the store is
path-addressable, so the mirror is keyed by component name), the violation
log and the validation mode. -/
structure TypedState where
  ns : String
  mode : String
  schema : List (String × List (String × Constraint))
  mirror : List (String × List (String × Constraint))
  violations : List Violation
deriving DecidableEq, Repr

/-- Result shape `{ valid, error }` of on-demand validation. -/
structure VRes where
  valid : Bool
  error : Option String
deriving DecidableEq, Repr

/-- The result of on-demand `validate(component, prop, value)`
(`styleEngine.js` lines 434-445), as a function of the live schema. -/
def validateRes (schema : List (String × List (String × Constraint)))
    (component prop : String) (value : JSVal) : VRes :=
  match alookup schema component with
  | none => { valid := true, error := none }
  | some cs =>
      match alookup cs prop with
      | none =>
          { valid := false,
            error := some ("Property " ++ sq ++ prop ++ sq ++ " not in " ++
              component ++ " schema.") }
      | some c =>
          match runValidator c.ctype value.toStr c with
          | none => { valid := true, error := none }
          | some e => { valid := e.isNone, error := e }

/-- On-demand `validate` as a state transformer: it reads the schema and
returns the state unchanged (the method performs no writes). -/
def validateOD (st : TypedState) (component prop : String) (value : JSVal) :
    VRes × TypedState :=
  (validateRes st.schema component prop value, st)

/-- `defineComponent(component, componentSchema)`: update the live schema and
mirror the (deep-copied) component schema into the store. -/
def defineComponent (st : TypedState) (component : String)
    (cs : List (String × Constraint)) : TypedState :=
  { st with schema := aset st.schema component cs,
            mirror := aset st.mirror component cs }

/-- `removeComponent(component)`: delete from the live schema only. -/
def removeComponent (st : TypedState) (component : String) : TypedState :=
  { st with schema := aerase st.schema component }

/-- `getSchema(component)`: read the mirror at `schema.{component}`. -/
def getSchemaComp (st : TypedState) (component : String) :
    Option (List (String × Constraint)) :=
  alookup st.mirror component

/-- The state effect of `report(component, prop, message)`: append to the
capped violation log (the `onViolation` / console side channel carries no
state). -/
def reportTyped (st : TypedState) (component prop message : String)
    (now : Nat) : TypedState :=
  { st with violations := reportLog st.violations ⟨component, prop, message, now⟩ }

/-- JS `split('.')` (keeps empty segments). -/
def splitDotAux : List Char → List Char → List String
  | [], acc => [String.mk acc.reverse]
  | c :: cs, acc =>
      if c = '.' then String.mk acc.reverse :: splitDotAux cs []
      else splitDotAux cs (c :: acc)

def jsSplitOnDot (s : String) : List String :=
  splitDotAux s.data []

/-- The automatic validation path `validate(path, value)` (`styleEngine.js`
lines 380-417): strip the namespace prefix, split into segments, look up the
component (first segment) and property (last segment), report a violation on
failure, and return the "should proceed" flag (`mode !== 'reject'` on
failure). -/
def validateAuto (st : TypedState) (path : String) (value : JSVal)
    (now : Nat) : Bool × TypedState :=
  let rel :=
    if jsStartsWith path (st.ns ++ ".") then
      String.mk (path.data.drop (st.ns.data.length + 1))
    else path
  let segments := jsSplitOnDot rel
  if segments.length < 2 then (true, st)
  else
    let component := segments.headD ""
    match alookup st.schema component with
    | none => (true, st)
    | some cs =>
        let prop := segments.getLastD ""
        match alookup cs prop with
        | none =>
            (st.mode != "reject",
             reportTyped st component prop
               ("Property not in schema. Allowed: " ++
                String.intercalate ", " (cs.map Prod.fst) ++ ".") now)
        | some c =>
            match runValidator c.ctype value.toStr c with
            | none => (true, st)
            | some none => (true, st)
            | some (some e) =>
                (st.mode != "reject", reportTyped st component prop e now)

/-- Substring occurrence test (used to state whether an error message
"names" something). -/
def listContainsSub (sub : List Char) : List Char → Bool
  | [] => sub.isEmpty
  | c :: cs => sub.isPrefixOf (c :: cs) || listContainsSub sub cs

def containsSub (s sub : String) : Bool :=
  listContainsSub sub.data s.data

/-! ### Typed-CSS theorems (claims C4, C6, C10) -/

/-- A concrete typed-CSS state with schema
`{ btn: { background: { type: 'color' } } }`. -/
def TS0 : TypedState :=
  { ns := "css", mode := "warn",
    schema := [("btn", [("background", { ctype := "color" })])],
    mirror := [("btn", [("background", { ctype := "color" })])],
    violations := [] }

/-- The empty typed-CSS state and a sibling with the same schema but a
different violation log. -/
def TSE : TypedState :=
  { ns := "css", mode := "warn", schema := [], mirror := [], violations := [] }

def TSE1 : TypedState :=
  { ns := "css", mode := "warn", schema := [], mirror := [],
    violations := [⟨"x", "y", "z", 3⟩] }

/-! ## Relational CSS (`src/relationalCSS.js`) -/

/-- JS `hex.replace('#', '')`: a string-pattern `replace` removes only the
first occurrence. -/
def removeFirstChar (c : Char) : List Char → List Char
  | [] => []
  | x :: xs => if x = c then xs else x :: removeFirstChar c xs

/-- `parseInt(h, 16)` on a single hex digit; `none` models `NaN`.  (The
source carries `NaN` triples through its arithmetic; that path lies outside
every claim's hypotheses, which require genuinely parseable colors, and is
modelled as a parse failure.) -/
def hexVal (c : Char) : Option Nat :=
  if c.isDigit then some (c.toNat - 48)
  else if 'a' ≤ c && c ≤ 'f' then some (c.toNat - 87)
  else if 'A' ≤ c && c ≤ 'F' then some (c.toNat - 55)
  else none

def hexPair (a b : Char) : Option Nat :=
  match hexVal a, hexVal b with
  | some x, some y => some (16 * x + y)
  | _, _ => none

/-- `hexToRgb` from `relationalCSS.js`: 3 digits expand pairwise, 6 or 8
digits use the first three byte pairs (any alpha byte is ignored). -/
def hexToRgb (hex : String) : Option (Nat × Nat × Nat) :=
  match removeFirstChar '#' hex.data with
  | [a, b, c] =>
      match hexPair a a, hexPair b b, hexPair c c with
      | some r, some g, some bl => some (r, g, bl)
      | _, _, _ => none
  | [a, b, c, d, e, f] =>
      match hexPair a b, hexPair c d, hexPair e f with
      | some r, some g, some bl => some (r, g, bl)
      | _, _, _ => none
  | [a, b, c, d, e, f, _, _] =>
      match hexPair a b, hexPair c d, hexPair e f with
      | some r, some g, some bl => some (r, g, bl)
      | _, _, _ => none
  | _ => none

/-- The tail of the `rgba?\(\s*(\d+)\s*,\s*(\d+)\s*,\s*(\d+)` pattern after
the opening parenthesis. -/
def rgbTail (l : List Char) : Option (Nat × Nat × Nat) :=
  let p1 := takeDigits (l.dropWhile isWsChar)
  if p1.1 = [] then none
  else
    match p1.2.dropWhile isWsChar with
    | ',' :: r3 =>
        let p2 := takeDigits (r3.dropWhile isWsChar)
        if p2.1 = [] then none
        else
          match p2.2.dropWhile isWsChar with
          | ',' :: r6 =>
              let p3 := takeDigits (r6.dropWhile isWsChar)
              if p3.1 = [] then none
              else some (charsToNat p1.1, charsToNat p2.1, charsToNat p3.1)
          | _ => none
    | _ => none

/-- Match `rgba?\(…` at the head of the list (`a?` is deterministic: after
an optional `a` the parenthesis must follow). -/
def rgbMatchAt (l : List Char) : Option (Nat × Nat × Nat) :=
  match l with
  | 'r' :: 'g' :: 'b' :: rest =>
      let rest2 := match rest with
        | 'a' :: r => r
        | _ => rest
      match rest2 with
      | '(' :: r3 => rgbTail r3
      | _ => none
  | _ => none

/-- `v.match(...)` searches the pattern anywhere in the string: first
position where the whole pattern matches. -/
def rgbSearch : List Char → Option (Nat × Nat × Nat)
  | [] => none
  | c :: cs =>
      match rgbMatchAt (c :: cs) with
      | some x => some x
      | none => rgbSearch cs

/-- The named-color table of `parseColor`. -/
def NAMED_COLORS : List (String × (Nat × Nat × Nat)) :=
  [("white", (255, 255, 255)), ("black", (0, 0, 0)),
   ("red", (255, 0, 0)), ("green", (0, 128, 0)), ("blue", (0, 0, 255)),
   ("yellow", (255, 255, 0)), ("orange", (255, 165, 0)),
   ("purple", (128, 0, 128)), ("gray", (128, 128, 128)),
   ("grey", (128, 128, 128))]

/-- `parseColor` from `relationalCSS.js`: trim; a leading `#` goes to
`hexToRgb`; otherwise search for `rgb(`/`rgba(` functional notation; finally
the lowercased named-color table. -/
def parseColor (value : String) : Option (Nat × Nat × Nat) :=
  let v := jsTrim value.data
  match v with
  | '#' :: _ => hexToRgb (String.mk v)
  | _ =>
      match rgbSearch v with
      | some rgb => some rgb
      | none => alookup NAMED_COLORS (String.mk (v.map Char.toLower))

/-- WCAG channel linearisation:
`c/255 ≤ 0.03928 ? (c/255)/12.92 : (((c/255)+0.055)/1.055)^2.4`.
Real-number exponentiation makes the luminance computation noncomputable;
the selection policy proved below holds for all real ratio values. -/
noncomputable def gammaChannel (c : Nat) : ℝ :=
  let cn : ℝ := c / 255
  if cn ≤ 0.03928 then cn / 12.92 else ((cn + 0.055) / 1.055) ^ (2.4 : ℝ)

/-- `relativeLuminance`: `0.2126*R + 0.7152*G + 0.0722*B` over the
linearised channels. -/
noncomputable def relativeLuminance (rgb : Nat × Nat × Nat) : ℝ :=
  0.2126 * gammaChannel rgb.1 + 0.7152 * gammaChannel rgb.2.1 +
    0.0722 * gammaChannel rgb.2.2

/-- `contrastRatio(color1, color2) = (lighter + 0.05) / (darker + 0.05)`. -/
noncomputable def contrastOf (c1 c2 : Nat × Nat × Nat) : ℝ :=
  (max (relativeLuminance c1) (relativeLuminance c2) + 0.05) /
    (min (relativeLuminance c1) (relativeLuminance c2) + 0.05)

/-- The branch structure choosing between the two candidates
(`relationalCSS.js` lines 230-246), applied to the computed ratios: the
written color and whether the non-fatal `console.warn` fired. -/
noncomputable def contrastSelect (light dark : String)
    (lightR darkR minR : ℝ) : String × Bool :=
  if lightR ≥ minR ∧ darkR ≥ minR then
    (if lightR ≥ darkR then light else dark, false)
  else if lightR ≥ minR then (light, false)
  else if darkR ≥ minR then (dark, false)
  else (if lightR ≥ darkR then light else dark, true)

/-- The `compute()` body of `contrast(targetPath, {against, light, dark,
minRatio})`: `none` when nothing is written (missing/falsy/unparseable
colors), otherwise the selected color and warning flag.  The function is
total: no branch throws. -/
noncomputable def contrastCompute (bg : Option JSVal) (light dark : String)
    (minR : ℝ) : Option (String × Bool) :=
  match bg with
  | none => none
  | some bgValue =>
      if ¬ bgValue.truthy then none
      else
        match parseColor bgValue.toStr with
        | none => none
        | some bgRgb =>
            match parseColor light, parseColor dark with
            | some lightRgb, some darkRgb =>
                some (contrastSelect light dark (contrastOf lightRgb bgRgb)
                  (contrastOf darkRgb bgRgb) minR)
            | _, _ => none

/-- One recompute of the contrast relation against the store: read
`against`, run `compute`, write the chosen color to the target; the flag
records whether the non-fatal warning fired. -/
noncomputable def contrastRecompute (store : List (String × JSVal))
    (targetPath against light dark : String) (minR : ℝ) :
    List (String × JSVal) × Bool :=
  match contrastCompute (alookup store against) light dark minR with
  | none => (store, false)
  | some (v, w) => (aset store targetPath (JSVal.vStr v), w)

/-- The selection policy in the words of the claim: if both candidates meet
`minRatio`, the higher-ratio candidate wins with ties resolved in favor of
`light`; if exactly one meets it, that one; if neither, the higher-ratio
candidate is still chosen together with a non-fatal warning. -/
noncomputable def contrastPolicySpec (light dark : String) (lightR darkR minR : ℝ) :
    String × Bool :=
  if minR ≤ lightR ∧ minR ≤ darkR then
    (if lightR < darkR then dark else light, false)
  else if minR ≤ lightR then (light, false)
  else if minR ≤ darkR then (dark, false)
  else (if lightR < darkR then dark else light, true)

/-- `clamp`'s per-change `compute()`: a missing (`undefined`/`null`) source
does nothing; an unparseable source is written through raw; otherwise the
value is clamped by each bound whose unit matches the source's unit and
re-formatted in the source's unit. -/
def clampRecompute (minP maxP : Option (ℚ × String))
    (store : List (String × JSVal)) (refPath targetPath : String) :
    List (String × JSVal) :=
  match alookup store refPath with
  | none => store
  | some JSVal.vNull => store
  | some (JSVal.vStr s) =>
      match parseLength s with
      | none => aset store targetPath (JSVal.vStr s)
      | some (pv, pu) =>
          let v1 := match minP with
            | some (mv, mu) => if pu = mu then max pv mv else pv
            | none => pv
          let v2 := match maxP with
            | some (xv, xu) => if pu = xu then min v1 xv else v1
            | none => v1
          aset store targetPath (JSVal.vStr (formatLength v2 pu))

/-- The clamp arithmetic in the words of the claim: the value is clamped to
`[min, max]` where each bound applies only if that bound's unit equals the
source's unit exactly (a mismatched-unit bound is silently skipped). -/
def clampSpecVal (v : ℚ) (u : String) (minP maxP : Option (ℚ × String)) : ℚ :=
  let lo : Option ℚ := match minP with
    | some (mv, mu) => if mu = u then some mv else none
    | none => none
  let hi : Option ℚ := match maxP with
    | some (xv, xu) => if xu = u then some xv else none
    | none => none
  match lo, hi with
  | some a, some b => min (max v a) b
  | some a, none => max v a
  | none, some b => min v b
  | none, none => v

/-- The canonical rendering of a well-formed length literal: optional minus,
integer part without leading zeros, optional fraction, unit. -/
def renderLit (neg : Bool) (ip : Nat) (fr : List Nat) (u : String) : String :=
  String.mk ((if neg then ['-'] else []) ++ natToChars ip ++
    (if fr = [] then [] else '.' :: fr.map dchar) ++ u.data)

theorem alookup_aset_self {α : Type} (l : List (String × α)) (k : String) (v : α) :
    alookup (aset l k v) k = some v := by
  induction l with
  | nil => simp [aset, alookup]
  | cons hd tl ih =>
      obtain ⟨k', v'⟩ := hd
      by_cases h : k' = k
      · simp [aset, h, alookup]
      · simp [aset, h, alookup, ih]

theorem alookup_aset_ne {α : Type} (l : List (String × α)) (k k' : String) (v : α)
    (h : k ≠ k') : alookup (aset l k v) k' = alookup l k' := by
  induction l with
  | nil => simp [aset, alookup, h]
  | cons hd tl ih =>
      obtain ⟨k0, v0⟩ := hd
      by_cases h0 : k0 = k
      · subst h0
        simp [aset, alookup, h]
      · simp [aset, h0, alookup, ih]

theorem alookup_eq_none_of_not_mem {α : Type} (l : List (String × α)) (k : String)
    (h : k ∉ l.map Prod.fst) : alookup l k = none := by
  induction l with
  | nil => simp [alookup]
  | cons hd tl ih =>
      obtain ⟨k0, v0⟩ := hd
      simp only [List.map_cons, List.mem_cons, not_or] at h
      simp only [alookup, if_neg (fun hh : k0 = k => h.1 hh.symm)]
      exact ih h.2

theorem alookup_aerase_self {α : Type} (l : List (String × α)) (k : String)
    (hnd : (l.map Prod.fst).Nodup) : alookup (aerase l k) k = none := by
  induction l with
  | nil => simp [aerase, alookup]
  | cons hd tl ih =>
      obtain ⟨k0, v0⟩ := hd
      simp only [List.map_cons, List.nodup_cons] at hnd
      by_cases h0 : k0 = k
      · subst h0
        simp only [aerase, if_pos rfl]
        exact alookup_eq_none_of_not_mem tl k0 hnd.1
      · simp only [aerase, if_neg h0, alookup, if_neg h0]
        exact ih hnd.2

theorem alookup_aerase_ne {α : Type} (l : List (String × α)) (k k' : String)
    (h : k ≠ k') : alookup (aerase l k) k' = alookup l k' := by
  induction l with
  | nil => simp [aerase]
  | cons hd tl ih =>
      obtain ⟨k0, v0⟩ := hd
      by_cases h0 : k0 = k
      · subst h0
        simp [aerase, alookup, fun hh : k0 = k' => h hh]
      · simp [aerase, h0, alookup, ih]

/-! ### Generic fold invariants -/

theorem foldl_pres {α β : Type} (P : α → Prop) (f : α → β → α) (l : List β) (init : α)
    (h0 : P init) (hstep : ∀ a b, P a → P (f a b)) : P (l.foldl f init) := by
  induction l generalizing init with
  | nil => exact h0
  | cons hd tl ih => exact ih (f init hd) (hstep init hd h0)

theorem foldl_mem_establish {α β : Type} (P Q : α → Prop) (f : α → β → α) (l : List β)
    (x : β) (hx : x ∈ l) (init : α)
    (hQ0 : Q init) (hQstep : ∀ a b, Q a → Q (f a b))
    (hPstep : ∀ a b, P a → P (f a b))
    (hest : ∀ a, Q a → P (f a x)) : P (l.foldl f init) := by
  induction l generalizing init with
  | nil => cases hx
  | cons hd tl ih =>
      rcases List.mem_cons.mp hx with h | h
      · subst h
        exact foldl_pres P f tl (f init x) (hest init hQ0) hPstep
      · exact ih h (f init hd) (hQstep init hd hQ0)

/-! ### Frame and store lemmas for `dsSet` -/

theorem dsSet_frame (fuel : Nat) (s : DSState) (p : String) (v : JSVal) :
    (dsSet fuel s p v).ns = s.ns ∧ (dsSet fuel s p v).bindings = s.bindings ∧
      (dsSet fuel s p v).unsubs = s.unsubs := by
  induction fuel generalizing s p with
  | zero => exact ⟨rfl, rfl, rfl⟩
  | succ fuel ih =>
      simp only [dsSet]
      apply foldl_pres
        (fun a : DSState => a.ns = s.ns ∧ a.bindings = s.bindings ∧ a.unsubs = s.unsubs)
      · exact ⟨rfl, rfl, rfl⟩
      · intro a t ha
        cases htgt : alookup a.bindings t with
        | none => simpa [htgt] using ha
        | some targets =>
            simp only [htgt]
            apply foldl_pres
              (fun a : DSState => a.ns = s.ns ∧ a.bindings = s.bindings ∧ a.unsubs = s.unsubs)
            · exact ha
            · intro a' sp ha'
              obtain ⟨h1, h2, h3⟩ := ih a' sp
              exact ⟨h1.trans ha'.1, h2.trans ha'.2.1, h3.trans ha'.2.2⟩

/-- Every store write performed during a `dsSet` cascade writes the
originally written value: afterwards every path holds either its old value
or `v`. -/
theorem dsSet_store_cases (fuel : Nat) (s : DSState) (p : String) (v : JSVal)
    (q : String) :
    alookup (dsSet fuel s p v).store q = some v ∨
      alookup (dsSet fuel s p v).store q = alookup s.store q := by
  induction fuel generalizing s p q with
  | zero =>
      by_cases h : p = q
      · subst h; exact Or.inl (alookup_aset_self s.store p v)
      · exact Or.inr (alookup_aset_ne s.store p q v h)
  | succ fuel ih =>
      simp only [dsSet]
      apply foldl_pres
        (fun a : DSState => ∀ q, alookup a.store q = some v ∨ alookup a.store q = alookup s.store q)
        _ _ _ ?_ ?_ q
      · intro q'
        by_cases h : p = q'
        · subst h; exact Or.inl (alookup_aset_self s.store p v)
        · exact Or.inr (alookup_aset_ne s.store p q' v h)
      · intro a t ha
        cases htgt : alookup a.bindings t with
        | none => simpa [htgt] using ha
        | some targets =>
            simp only [htgt]
            apply foldl_pres
              (fun a : DSState => ∀ q, alookup a.store q = some v ∨ alookup a.store q = alookup s.store q)
            · exact ha
            · intro a' sp ha' q'
              rcases ih a' sp q' with h | h
              · exact Or.inl h
              · rw [h]; exact ha' q'

theorem dsSet_store_stable (fuel : Nat) (s : DSState) (p : String) (v : JSVal)
    (q : String) (h : alookup s.store q = some v) :
    alookup (dsSet fuel s p v).store q = some v := by
  rcases dsSet_store_cases fuel s p v q with h' | h'
  · exact h'
  · exact h'.trans h

/-- The written path itself ends up holding the written value. -/
theorem dsSet_store_self (fuel : Nat) (s : DSState) (p : String) (v : JSVal) :
    alookup (dsSet fuel s p v).store p = some v := by
  cases fuel with
  | zero => exact alookup_aset_self s.store p v
  | succ fuel =>
      simp only [dsSet]
      apply foldl_pres (fun a : DSState => alookup a.store p = some v)
      · exact alookup_aset_self s.store p v
      · intro a t ha
        cases htgt : alookup a.bindings t with
        | none => simpa [htgt] using ha
        | some targets =>
            simp only [htgt]
            apply foldl_pres (fun a : DSState => alookup a.store p = some v)
            · exact ha
            · intro a' sp ha'
              exact dsSet_store_stable fuel a' sp v p ha'

/-- Propagation: a `dsSet` on the full path of a subscribed token writes the
value to every style path bound to that token (given at least one unit of
notification fuel). -/
theorem dsSet_writes_targets (fuel : Nat) (s : DSState) (v : JSVal)
    (t S : String) (ht : t ∈ s.unsubs) (hS : S ∈ dsTargets s t) :
    alookup (dsSet (fuel + 1) s (fullTokenPath s.ns t) v).store S = some v := by
  cases hbt : alookup s.bindings t with
  | none => simp [dsTargets, hbt] at hS
  | some targets =>
      simp only [dsTargets, hbt, Option.getD_some] at hS
      simp only [dsSet]
      apply foldl_mem_establish (fun a : DSState => alookup a.store S = some v)
        (fun a : DSState => a.bindings = s.bindings) _ _ t ?_ _ ?_ ?_ ?_ ?_
      · -- t fires: it is subscribed and its full path is the written path
        simp only [List.mem_filter]
        exact ⟨ht, by simp⟩
      · -- the binding graph is untouched by the initial store write
        rfl
      · -- the binding graph is unchanged throughout the cascade
        intro a t' ha
        cases htgt : alookup a.bindings t' with
        | none => simpa [htgt] using ha
        | some targets' =>
            simp only [htgt]
            apply foldl_pres (fun a : DSState => a.bindings = s.bindings)
            · exact ha
            · intro a' sp ha'
              exact ((dsSet_frame fuel a' sp v).2.1).trans ha'
      · -- once `S` holds `v`, later cascade writes keep it at `v`
        intro a t' ha
        cases htgt : alookup a.bindings t' with
        | none => simpa [htgt] using ha
        | some targets' =>
            simp only [htgt]
            apply foldl_pres (fun a : DSState => alookup a.store S = some v)
            · exact ha
            · intro a' sp ha'
              exact dsSet_store_stable fuel a' sp v S ha'
      · -- processing token `t` writes `v` to each of its targets, `S` included
        intro a hab
        rw [hab, hbt]
        apply foldl_mem_establish (fun a : DSState => alookup a.store S = some v)
          (fun _ : DSState => True) _ _ S hS _ trivial (fun _ _ _ => trivial) ?_ ?_
        · intro a' sp ha'
          exact dsSet_store_stable fuel a' sp v S ha'
        · intro a' _
          exact dsSet_store_self fuel a' S v

/-! ### Further association-list lemmas -/

theorem alookup_isSome_iff_mem {α : Type} (l : List (String × α)) (k : String) :
    (alookup l k).isSome ↔ k ∈ l.map Prod.fst := by
  induction l with
  | nil => simp [alookup]
  | cons hd tl ih =>
      obtain ⟨k0, v0⟩ := hd
      by_cases h : k0 = k
      · subst h; simp [alookup]
      · simp only [alookup, if_neg h, List.map_cons, List.mem_cons]
        rw [ih]
        constructor
        · intro hm; exact Or.inr hm
        · intro hm
          rcases hm with hm | hm
          · exact absurd hm.symm h
          · exact hm

theorem alookup_append {α : Type} (l m : List (String × α)) (k : String) :
    alookup (l ++ m) k =
      match alookup l k with
      | some v => some v
      | none => alookup m k := by
  induction l with
  | nil => simp [alookup]
  | cons hd tl ih =>
      obtain ⟨k0, v0⟩ := hd
      by_cases h : k0 = k
      · simp [alookup, h]
      · simp [alookup, h, ih]

theorem aset_map_fst_of_mem {α : Type} (l : List (String × α)) (k : String) (v : α)
    (h : k ∈ l.map Prod.fst) : (aset l k v).map Prod.fst = l.map Prod.fst := by
  induction l with
  | nil => simp at h
  | cons hd tl ih =>
      obtain ⟨k0, v0⟩ := hd
      by_cases h0 : k0 = k
      · simp [aset, h0]
      · simp only [List.map_cons, List.mem_cons] at h
        rcases h with h | h
        · exact absurd h.symm h0
        · simp [aset, h0, ih h]

theorem aerase_sublist {α : Type} (l : List (String × α)) (k : String) :
    List.Sublist (aerase l k) l := by
  induction l with
  | nil => simp [aerase]
  | cons hd tl ih =>
      obtain ⟨k0, v0⟩ := hd
      by_cases h0 : k0 = k
      · rw [aerase, if_pos h0]
        exact List.sublist_cons_self (k0, v0) tl
      · rw [aerase, if_neg h0]
        exact ih.cons₂ (k0, v0)

theorem listAdd_ne_nil (l : List String) (x : String) : listAdd l x ≠ [] := by
  unfold listAdd
  by_cases h : x ∈ l
  · simp only [if_pos h]
    intro hnil; subst hnil; cases h
  · simp [if_neg h]

theorem dsInv_dsSet (fuel : Nat) (s : DSState) (p : String) (v : JSVal)
    (h : DSInv s) : DSInv (dsSet fuel s p v) := by
  obtain ⟨-, hb, hu⟩ := dsSet_frame fuel s p v
  unfold DSInv
  rw [hb, hu]
  exact h

theorem dsInv_bind (fuel : Nat) (s : DSState) (sp tp : String) (h : DSInv s) :
    DSInv (dsBind fuel s sp tp) := by
  obtain ⟨hkeys, hnd, hne, hiff⟩ := h
  have step : ∀ (s1 : DSState) (o : Option JSVal), DSInv s1 →
      DSInv (match o with
             | some cur => dsSet fuel s1 sp cur
             | none => s1) := by
    intro s1 o h1
    cases o with
    | some cur => exact dsInv_dsSet fuel s1 sp cur h1
    | none => exact h1
  unfold dsBind
  cases hb : alookup s.bindings tp with
  | some targets =>
      -- the token already has bindings, hence (by the invariant) a subscription
      have hmem : tp ∈ s.unsubs := (hiff tp).mpr (by simp [hb])
      simp only [hb, if_pos hmem]
      apply step _ _
      refine ⟨?_, hnd, ?_, ?_⟩
      · rw [aset_map_fst_of_mem s.bindings tp _
          ((alookup_isSome_iff_mem s.bindings tp).mp (by simp [hb]))]
        exact hkeys
      · intro t ts hts
        by_cases ht : tp = t
        · subst ht
          rw [alookup_aset_self] at hts
          cases hts
          exact listAdd_ne_nil targets sp
        · rw [alookup_aset_ne _ _ _ _ ht] at hts
          exact hne t ts hts
      · intro t
        by_cases ht : tp = t
        · subst ht
          simp [alookup_aset_self, hmem]
        · rw [alookup_aset_ne _ _ _ _ ht]
          exact hiff t
  | none =>
      -- first binding for this token: a fresh subscription is created
      have hnm : tp ∉ s.unsubs := fun hm => by
        have := (hiff tp).mp hm; rw [hb] at this; cases this
      have hnk : tp ∉ s.bindings.map Prod.fst := fun hk =>
        by rw [← alookup_isSome_iff_mem, hb] at hk; cases hk
      simp only [hb, if_neg hnm]
      apply step _ _
      refine ⟨?_, ?_, ?_, ?_⟩
      · rw [List.map_append]
        exact hkeys.append (List.nodup_singleton tp)
          (fun a ha hb' => by
            simp only [List.map_cons, List.map_nil, List.mem_singleton] at hb'
            subst hb'
            exact hnk ha)
      · exact hnd.append (List.nodup_singleton tp)
          (fun a ha hb' => by
            simp only [List.mem_singleton] at hb'
            subst hb'
            exact hnm ha)
      · intro t ts hts
        rw [alookup_append] at hts
        cases h' : alookup s.bindings t with
        | some ts' =>
            rw [h'] at hts
            cases hts
            exact hne t _ h'
        | none =>
            rw [h'] at hts
            simp only [alookup] at hts
            by_cases ht : tp = t
            · rw [if_pos ht] at hts
              cases hts
              simp
            · rw [if_neg ht] at hts
              cases hts
      · intro t
        rw [alookup_append, List.mem_append, List.mem_singleton]
        by_cases ht : tp = t
        · subst ht
          simp [hb, alookup, hnm]
        · cases h' : alookup s.bindings t with
          | some ts' =>
              simp only [h', Option.isSome_some, iff_true]
              exact Or.inl ((hiff t).mpr (by simp [h']))
          | none =>
              have hts : t ∉ s.unsubs := fun hm => by
                have := (hiff t).mp hm; rw [h'] at this; cases this
              simp only [h', alookup, if_neg ht, Option.isSome_none, Bool.false_eq_true,
                iff_false]
              intro hcon
              rcases hcon with hm | hm
              · exact hts hm
              · exact ht hm.symm

theorem dsInv_unbind (s : DSState) (sp tp : String) (h : DSInv s) :
    DSInv (dsUnbind s sp tp) := by
  obtain ⟨hkeys, hnd, hne, hiff⟩ := h
  unfold dsUnbind
  cases hb : alookup s.bindings tp with
  | none => exact ⟨hkeys, hnd, hne, hiff⟩
  | some targets =>
      simp only
      by_cases hempty : targets.erase sp = []
      · simp only [if_pos hempty]
        refine ⟨((aerase_sublist s.bindings tp).map Prod.fst).nodup hkeys,
          hnd.erase tp, ?_, ?_⟩
        · intro t ts hts
          by_cases ht : tp = t
          · subst ht
            rw [alookup_aerase_self s.bindings tp hkeys] at hts
            cases hts
          · rw [alookup_aerase_ne _ _ _ ht] at hts
            exact hne t ts hts
        · intro t
          by_cases ht : tp = t
          · subst ht
            rw [alookup_aerase_self s.bindings tp hkeys]
            simp [hnd.mem_erase_iff]
          · rw [alookup_aerase_ne _ _ _ ht,
              List.mem_erase_of_ne (fun hh : t = tp => ht hh.symm)]
            exact hiff t
      · simp only [if_neg hempty]
        refine ⟨?_, hnd, ?_, ?_⟩
        · rw [aset_map_fst_of_mem s.bindings tp _
            ((alookup_isSome_iff_mem s.bindings tp).mp (by simp [hb]))]
          exact hkeys
        · intro t ts hts
          by_cases ht : tp = t
          · subst ht
            rw [alookup_aset_self] at hts
            cases hts
            exact hempty
          · rw [alookup_aset_ne _ _ _ _ ht] at hts
            exact hne t ts hts
        · intro t
          by_cases ht : tp = t
          · subst ht
            simp only [alookup_aset_self, Option.isSome_some, iff_true]
            exact (hiff tp).mpr (by simp [hb])
          · rw [alookup_aset_ne _ _ _ _ ht]
            exact hiff t

theorem dsInv_apply (fuel : Nat) (s : DSState) (op : DSOp) (h : DSInv s) :
    DSInv (dsApply fuel s op) := by
  cases op with
  | opBind sp tp => exact dsInv_bind fuel s sp tp h
  | opUnbind sp tp => exact dsInv_unbind s sp tp h
  | opSetToken tp v => exact dsInv_dsSet fuel s _ v h
  | extSet p v => exact dsInv_dsSet fuel s p v h
  | opDestroy =>
      refine ⟨List.nodup_nil, List.nodup_nil, ?_, ?_⟩
      · intro t ts hts
        simp only [dsApply, dsDestroy, alookup] at hts
        cases hts
      · intro t
        simp [dsApply, dsDestroy, alookup]

theorem dsInv_init (ns : String) (store0 : List (String × JSVal)) :
    DSInv (dsInit ns store0) := by
  refine ⟨List.nodup_nil, List.nodup_nil, ?_, ?_⟩
  · intro t ts hts
    simp only [dsInit, alookup] at hts
    cases hts
  · intro t
    simp [dsInit, alookup]

/-- Every state reachable through the public API satisfies the invariant. -/
theorem dsRun_inv (fuel : Nat) (ns : String) (store0 : List (String × JSVal))
    (ops : List DSOp) : DSInv (dsRun fuel ns store0 ops) :=
  foldl_pres DSInv (dsApply fuel) ops (dsInit ns store0) (dsInv_init ns store0)
    (dsInv_apply fuel)

theorem dsApply_ns (fuel : Nat) (s : DSState) (op : DSOp) :
    (dsApply fuel s op).ns = s.ns := by
  cases op with
  | opBind sp tp =>
      show (dsBind fuel s sp tp).ns = s.ns
      unfold dsBind
      cases hc : alookup s.store (fullTokenPath s.ns tp) with
      | some cur =>
          simp only [hc]
          exact (dsSet_frame fuel _ sp cur).1
      | none => simp only [hc]
  | opUnbind sp tp =>
      show (dsUnbind s sp tp).ns = s.ns
      unfold dsUnbind
      cases hc : alookup s.bindings tp with
      | none => rfl
      | some targets =>
          by_cases h : targets.erase sp = []
          · simp [h]
          · simp [h]
  | opSetToken tp v => exact (dsSet_frame fuel s _ v).1
  | extSet p v => exact (dsSet_frame fuel s p v).1
  | opDestroy => rfl

theorem dsRun_ns (fuel : Nat) (ns : String) (store0 : List (String × JSVal))
    (ops : List DSOp) : (dsRun fuel ns store0 ops).ns = ns := by
  unfold dsRun
  apply foldl_pres (fun a : DSState => a.ns = ns)
  · rfl
  · intro a op ha
    exact (dsApply_ns fuel a op).trans ha

/-- `bind` writes the token's current value to the style path, and the token
path keeps that value. -/
theorem dsBind_initial_sync (fuel : Nat) (s : DSState) (S T : String) (u : JSVal)
    (h : alookup s.store (fullTokenPath s.ns T) = some u) :
    alookup (dsBind fuel s S T).store S = some u ∧
      alookup (dsBind fuel s S T).store (fullTokenPath s.ns T) = some u := by
  unfold dsBind
  simp only [h]
  exact ⟨dsSet_store_self fuel _ S u, dsSet_store_stable fuel _ S u _ h⟩

/-- In any invariant-satisfying state, `setToken` writes the value to every
currently bound style path. -/
theorem dsSetToken_propagates (fuel : Nat) (s : DSState) (hInv : DSInv s)
    (S T : String) (v : JSVal) (hb : S ∈ dsTargets s T) :
    alookup (dsSetToken (fuel + 1) s T v).store S = some v := by
  have hsub : T ∈ s.unsubs := by
    apply (hInv.2.2.2 T).mpr
    cases h' : alookup s.bindings T with
    | none => simp [dsTargets, h'] at hb
    | some ts => simp [h']
  exact dsSet_writes_targets fuel s v T S hsub hb

/-- **C1**: For every token path T and style path S bound via `bind(S, T)`:
immediately after `bind(S, T)` returns, the store value at S equals the store
value at T whenever T's value is defined; and after any subsequent
`setToken(T, v)`, the store value at S equals v for every style path S
currently bound to T.  (States are those reachable through the public API;
`fuel` bounds notification depth, see `dsSet`.) -/
theorem C1_bind_and_setToken_propagate (fuel : Nat) (ns : String)
    (store0 : List (String × JSVal)) (ops : List DSOp) (S T : String)
    (u v : JSVal) :
    (alookup (dsRun fuel ns store0 ops).store (fullTokenPath ns T) = some u →
      alookup (dsBind fuel (dsRun fuel ns store0 ops) S T).store S = some u ∧
        alookup (dsBind fuel (dsRun fuel ns store0 ops) S T).store
          (fullTokenPath ns T) = some u) ∧
    (S ∈ dsTargets (dsRun fuel ns store0 ops) T →
      alookup (dsSetToken (fuel + 1) (dsRun fuel ns store0 ops) T v).store S
        = some v) := by
  have hns := dsRun_ns fuel ns store0 ops
  constructor
  · intro h
    have := dsBind_initial_sync fuel (dsRun fuel ns store0 ops) S T u
      (by rw [hns]; exact h)
    rwa [hns] at this
  · intro hb
    exact dsSetToken_propagates fuel (dsRun fuel ns store0 ops)
      (dsRun_inv fuel ns store0 ops) S T v hb

/-- Witness for C1 at the scenario of spec §8: token `color.primary` is
`#3b82f6`; binding `css.btn.background` syncs it, and a later `setToken`
to `#22c55e` propagates. -/
theorem C1_witness :
    (alookup (dsBind 1 (dsRun 1 "tokens"
          [("tokens.color.primary", JSVal.vStr "#3b82f6")]
          [DSOp.opBind "css.btn.background" "color.primary"])
        "css.card.background" "color.primary").store "css.card.background"
      = some (JSVal.vStr "#3b82f6")) ∧
    (alookup (dsSetToken 2 (dsRun 1 "tokens"
          [("tokens.color.primary", JSVal.vStr "#3b82f6")]
          [DSOp.opBind "css.btn.background" "color.primary"])
        "color.primary" (JSVal.vStr "#22c55e")).store "css.btn.background"
      = some (JSVal.vStr "#22c55e")) := by
  have h := C1_bind_and_setToken_propagate 1 "tokens"
    [("tokens.color.primary", JSVal.vStr "#3b82f6")]
    [DSOp.opBind "css.btn.background" "color.primary"]
    "css.card.background" "color.primary" (JSVal.vStr "#3b82f6") (JSVal.vStr "#22c55e")
  have h2 := C1_bind_and_setToken_propagate 1 "tokens"
    [("tokens.color.primary", JSVal.vStr "#3b82f6")]
    [DSOp.opBind "css.btn.background" "color.primary"]
    "css.btn.background" "color.primary" (JSVal.vStr "#3b82f6") (JSVal.vStr "#22c55e")
  exact ⟨(h.1 (by decide)).1, h2.2 (by decide)⟩

/-- **C2**: each token path has at most one active store subscription no
matter how many style paths are bound to it (the subscription list is
duplicate-free), and a subscription for a token path exists iff that token's
binding set is non-empty, across every sequence of API operations. -/
theorem C2_subscription_invariant (fuel : Nat) (ns : String)
    (store0 : List (String × JSVal)) (ops : List DSOp) :
    (dsRun fuel ns store0 ops).unsubs.Nodup ∧
      ∀ t, t ∈ (dsRun fuel ns store0 ops).unsubs ↔
        ∃ ts, alookup (dsRun fuel ns store0 ops).bindings t = some ts ∧ ts ≠ [] := by
  obtain ⟨hkeys, hnd, hne, hiff⟩ := dsRun_inv fuel ns store0 ops
  refine ⟨hnd, fun t => ?_⟩
  rw [hiff t]
  constructor
  · intro h
    cases h' : alookup (dsRun fuel ns store0 ops).bindings t with
    | none => rw [h'] at h; cases h
    | some ts => exact ⟨ts, rfl, hne t ts h'⟩
  · rintro ⟨ts, hts, -⟩
    simp [hts]

/-- Witness for C2: two binds on one token, then one unbind. -/
theorem C2_witness :
    (dsRun 1 "tokens" []
        [DSOp.opBind "css.btn.background" "color.primary",
         DSOp.opBind "css.card.background" "color.primary",
         DSOp.opUnbind "css.btn.background" "color.primary"]).unsubs.Nodup ∧
      ("color.primary" ∈ (dsRun 1 "tokens" []
          [DSOp.opBind "css.btn.background" "color.primary",
           DSOp.opBind "css.card.background" "color.primary",
           DSOp.opUnbind "css.btn.background" "color.primary"]).unsubs ↔
        ∃ ts, alookup (dsRun 1 "tokens" []
            [DSOp.opBind "css.btn.background" "color.primary",
             DSOp.opBind "css.card.background" "color.primary",
             DSOp.opUnbind "css.btn.background" "color.primary"]).bindings
            "color.primary" = some ts ∧ ts ≠ []) := by
  have h := C2_subscription_invariant 1 "tokens" []
    [DSOp.opBind "css.btn.background" "color.primary",
     DSOp.opBind "css.card.background" "color.primary",
     DSOp.opUnbind "css.btn.background" "color.primary"]
  exact ⟨h.1, h.2 "color.primary"⟩

/-! ### Violation-log theorems (claims C7, C8) -/

/-- **C7**: the violation log never exceeds 200 entries across every sequence
of `report` and `clearViolations` calls; each report appends at the end, and
an append that would exceed 200 evicts the oldest entry from the front. -/
theorem C7_violation_log_bounded (ops : List VLogOp) (entry : Violation) :
    (vlogRun ops).length ≤ 200 ∧
      reportLog (vlogRun ops) entry =
        (if (vlogRun ops).length = 200 then (vlogRun ops).drop 1 ++ [entry]
         else vlogRun ops ++ [entry]) := by
  have hinv : (vlogRun ops).length ≤ 200 := by
    unfold vlogRun
    apply foldl_pres (fun l : List Violation => l.length ≤ 200)
    · simp
    · intro l op hl
      cases op with
      | logClear => simp [vlogApply]
      | logReport e =>
          simp only [vlogApply, reportLog, List.length_append,
            List.length_singleton]
          by_cases h : 200 < l.length + 1
          · simp only [if_pos h, List.length_drop, List.length_append,
              List.length_singleton]
            omega
          · simp only [if_neg h, List.length_append, List.length_singleton]
            omega
  refine ⟨hinv, ?_⟩
  unfold reportLog
  by_cases h : (vlogRun ops).length = 200
  · rw [if_pos (by simp [h]), if_pos h]
    exact List.drop_append_of_le_length (by omega)
  · rw [if_neg (by simp; omega), if_neg h]

/-- **C8** as stated is false at `limit = 0`: the claim demands the most
recent `min(0, 1) = 0` entries, but `slice(-0)` is `slice(0)` and the whole
log comes back. -/
theorem C8_counterexample :
    getViolations [⟨"btn", "background", "bad", 0⟩] 0 =
        [⟨"btn", "background", "bad", 0⟩] ∧
      ¬ (getViolations [⟨"btn", "background", "bad", 0⟩] 0).length =
          min 0 [(⟨"btn", "background", "bad", 0⟩ : Violation)].length := by
  exact ⟨rfl, by decide⟩

/-- **C8** (amended): for every *positive* limit, `getViolations(limit)`
returns exactly the most recent `min(limit, length)` violations, oldest-first
within that slice (a contiguous suffix of the log); `limit = 0` instead
returns the whole log. -/
theorem C8_amended_recent_suffix (log : List Violation) (limit : Nat)
    (h : 1 ≤ limit) :
    (getViolations log limit).length = min limit log.length ∧
      List.IsSuffix (getViolations log limit) log ∧
      getViolations log 0 = log := by
  unfold getViolations
  rw [if_neg (by omega)]
  refine ⟨?_, ?_, by simp⟩
  · rw [List.length_drop]
    omega
  · exact List.drop_suffix _ _

/-- Witness for C8 (amended) on a two-entry log with limit 1. -/
theorem C8_witness :
    (getViolations [⟨"a", "b", "m", 0⟩, ⟨"c", "d", "n", 1⟩] 1).length =
        min 1 [(⟨"a", "b", "m", 0⟩ : Violation), ⟨"c", "d", "n", 1⟩].length ∧
      List.IsSuffix (getViolations [⟨"a", "b", "m", 0⟩, ⟨"c", "d", "n", 1⟩] 1)
        [⟨"a", "b", "m", 0⟩, ⟨"c", "d", "n", 1⟩] ∧
      getViolations [⟨"a", "b", "m", 0⟩, ⟨"c", "d", "n", 1⟩] 0 =
        [⟨"a", "b", "m", 0⟩, ⟨"c", "d", "n", 1⟩] :=
  C8_amended_recent_suffix [⟨"a", "b", "m", 0⟩, ⟨"c", "d", "n", 1⟩] 1 (by decide)

/-- **C4** as stated is false: for a component with a schema and an unknown
property, the on-demand `validate` result is invalid, but its error message
is `Property 'p' not in c schema.` — it does not name the allowed property
list (here `background` does not occur in it). -/
theorem C4_counterexample :
    (validateOD TS0 "btn" "padding" (JSVal.vStr "1rem")).1 =
        { valid := false,
          error := some ("Property " ++ sq ++ "padding" ++ sq ++
            " not in btn schema.") } ∧
      containsSub ("Property " ++ sq ++ "padding" ++ sq ++ " not in btn schema.")
        "background" = false := by
  exact ⟨rfl, by decide⟩

theorem strip_ns_prefix (ns rest : String) :
    jsStartsWith (ns ++ "." ++ rest) (ns ++ ".") = true ∧
      (ns ++ "." ++ rest).data.drop (ns.data.length + 1) = rest.data := by
  have hdata : (ns ++ "." ++ rest).data = (ns ++ ".").data ++ rest.data :=
    String.data_append _ _
  constructor
  · unfold jsStartsWith
    rw [hdata]
    exact List.isPrefixOf_iff_prefix.mpr (List.prefix_append _ _)
  · rw [hdata]
    have hlen : ns.data.length + 1 = (ns ++ ".").data.length := by
      rw [String.data_append]
      simp
    rw [hlen]
    exact List.drop_left _ _

/-- **C4** (amended): if the schema has no entry for component c, on-demand
`validate(c, p, v)` returns `{valid: true, error: null}`; if the schema has
an entry for c but none for property p, it returns `valid: false` with an
error naming the offending property and component
(`Property 'p' not in c schema.`) — the message naming the allowed property
list is produced only by the automatic validation path's reported
violation. -/
theorem C4_unknown_component_and_property (st : TypedState) (c p : String)
    (v : JSVal) :
    (alookup st.schema c = none →
      (validateOD st c p v).1 = { valid := true, error := none }) ∧
    (∀ cs, alookup st.schema c = some cs → alookup cs p = none →
      (validateOD st c p v).1 =
        { valid := false,
          error := some ("Property " ++ sq ++ p ++ sq ++ " not in " ++ c ++
            " schema.") }) ∧
    (∀ cs now, alookup st.schema c = some cs → alookup cs p = none →
      jsSplitOnDot (c ++ "." ++ p) = [c, p] →
      (validateAuto st (st.ns ++ "." ++ c ++ "." ++ p) v now).2.violations =
        reportLog st.violations
          ⟨c, p, "Property not in schema. Allowed: " ++
            String.intercalate ", " (cs.map Prod.fst) ++ ".", now⟩) := by
  refine ⟨?_, ?_, ?_⟩
  · intro h
    simp [validateOD, validateRes, h]
  · intro cs hcs hp
    simp [validateOD, validateRes, hcs, hp]
  · intro cs now hcs hp hsplit
    obtain ⟨h1, h2⟩ := strip_ns_prefix st.ns (c ++ "." ++ p)
    unfold validateAuto
    simp only [String.append_assoc] at h1 h2 hsplit ⊢
    rw [h1]
    simp only [h2, eq_self_iff_true, if_true, ite_true]
    have hmk : String.mk (c ++ ("." ++ p)).data = c ++ ("." ++ p) := rfl
    rw [hmk, hsplit]
    simp only [List.length_cons, List.length_nil, List.headD_cons]
    rw [if_neg (by omega), hcs]
    have hlast : ([c, p].getLastD "") = p := rfl
    rw [hlast]
    simp only [hp]
    rfl

/-- Witness for C4 (amended) on `TS0`. -/
theorem C4_witness :
    (validateOD TS0 "card" "background" (JSVal.vStr "#fff")).1 =
        { valid := true, error := none } ∧
      (validateOD TS0 "btn" "padding" (JSVal.vStr "1rem")).1 =
        { valid := false,
          error := some ("Property " ++ sq ++ "padding" ++ sq ++
            " not in btn schema.") } ∧
      (validateAuto TS0 (TS0.ns ++ "." ++ "btn" ++ "." ++ "padding")
          (JSVal.vStr "1rem") 7).2.violations =
        reportLog TS0.violations
          ⟨"btn", "padding", "Property not in schema. Allowed: " ++
            String.intercalate ", "
              ([("background", ({ ctype := "color" } : Constraint))].map Prod.fst) ++
            ".", 7⟩ := by
  have h1 := C4_unknown_component_and_property TS0 "card" "background"
    (JSVal.vStr "#fff")
  have h2 := C4_unknown_component_and_property TS0 "btn" "padding"
    (JSVal.vStr "1rem")
  exact ⟨h1.1 rfl, h2.2.1 _ rfl rfl, h2.2.2 _ 7 rfl rfl (by decide)⟩

/-- **C6**: on-demand `validate` is a pure function of the schema and its
three arguments — the state (schema, violation log, store mirror) is
returned unmodified, the result depends only on the schema — and
`defineComponent(c, s)` followed by `validate` on c with a value satisfying
s yields `{valid: true, error: null}`. -/
theorem C6_validate_pure (st st2 : TypedState) (c p : String) (v : JSVal)
    (cs : List (String × Constraint)) (k : Constraint) :
    (validateOD st c p v).2 = st ∧
    (st.schema = st2.schema →
      (validateOD st c p v).1 = (validateOD st2 c p v).1) ∧
    (alookup cs p = some k →
      ((runValidator k.ctype v.toStr k).getD none).isNone = true →
      (validateOD (defineComponent st c cs) c p v).1 =
        { valid := true, error := none }) := by
  refine ⟨rfl, ?_, ?_⟩
  · intro h
    simp [validateOD, h]
  · intro h1 h2
    simp only [validateOD, defineComponent, validateRes, alookup_aset_self, h1]
    cases hrv : runValidator k.ctype v.toStr k with
    | none => rfl
    | some e =>
        rw [hrv] at h2
        simp only [Option.getD_some] at h2
        cases e with
        | none => rfl
        | some msg => simp at h2

/-- Witness for C6: `defineComponent('card', {background: {type: 'color'}})`
then `validate('card', 'background', '#fff')` is valid; purity at the same
schema with different logs. -/
theorem C6_witness :
    (validateOD TSE "card" "background" (JSVal.vStr "#fff")).2 = TSE ∧
      (validateOD TSE "card" "background" (JSVal.vStr "#fff")).1 =
        (validateOD TSE1 "card" "background" (JSVal.vStr "#fff")).1 ∧
      (validateOD (defineComponent TSE "card"
          [("background", { ctype := "color" })]) "card" "background"
          (JSVal.vStr "#fff")).1 = { valid := true, error := none } := by
  have h := C6_validate_pure TSE TSE1 "card" "background" (JSVal.vStr "#fff")
    [("background", { ctype := "color" })] { ctype := "color" }
  exact ⟨h.1, h.2.1 rfl, h.2.2 rfl (by decide)⟩

/-- **C10**: `removeComponent(c)` deletes c only from the live schema:
afterwards `validate(c, p, v)` is valid for every p and v, the store mirror
is untouched, and `getSchema(c)` still reads the old mirror entry until a
later `defineComponent(c, ...)` overwrites it.  (`hnd`: JS object keys are
unique.) -/
theorem C10_removeComponent_live_schema_only (st : TypedState) (c p : String)
    (v : JSVal) (cs : List (String × Constraint))
    (hnd : (st.schema.map Prod.fst).Nodup) :
    (validateOD (removeComponent st c) c p v).1 =
        { valid := true, error := none } ∧
      (removeComponent st c).mirror = st.mirror ∧
      getSchemaComp (removeComponent st c) c = getSchemaComp st c ∧
      getSchemaComp (removeComponent (defineComponent st c cs) c) c = some cs ∧
      getSchemaComp (defineComponent (removeComponent st c) c cs) c = some cs := by
  refine ⟨?_, rfl, rfl, ?_, ?_⟩
  · simp [validateOD, validateRes, removeComponent, alookup_aerase_self _ _ hnd]
  · simp [getSchemaComp, removeComponent, defineComponent, alookup_aset_self]
  · simp [getSchemaComp, removeComponent, defineComponent, alookup_aset_self]

/-- Witness for C10 on `TS0` with the component `btn`. -/
theorem C10_witness :
    (validateOD (removeComponent TS0 "btn") "btn" "background"
        (JSVal.vStr "red")).1 = { valid := true, error := none } ∧
      (removeComponent TS0 "btn").mirror = TS0.mirror ∧
      getSchemaComp (removeComponent TS0 "btn") "btn" = getSchemaComp TS0 "btn" ∧
      getSchemaComp (removeComponent (defineComponent TS0 "btn"
          [("display", { ctype := "string" })]) "btn") "btn" =
        some [("display", { ctype := "string" })] ∧
      getSchemaComp (defineComponent (removeComponent TS0 "btn") "btn"
          [("display", { ctype := "string" })]) "btn" =
        some [("display", { ctype := "string" })] :=
  C10_removeComponent_live_schema_only TS0 "btn" "background" (JSVal.vStr "red")
    [("display", { ctype := "string" })] (by decide)

/-! ### Clamp theorems (claim C5) -/

/-- **C5** as stated is false on a missing-value change: when the ref path
holds `null`, nothing is written — the raw source value is *not* passed
through to the target. -/
theorem C5_counterexample :
    clampRecompute (parseLength "0.75rem") (parseLength "2rem")
        [("css.input.fontSize", JSVal.vNull),
         ("css.input.fontSizeClamped", JSVal.vStr "t0")]
        "css.input.fontSize" "css.input.fontSizeClamped"
      = [("css.input.fontSize", JSVal.vNull),
         ("css.input.fontSizeClamped", JSVal.vStr "t0")] ∧
    alookup [("css.input.fontSize", JSVal.vNull),
         ("css.input.fontSizeClamped", JSVal.vStr "t0")]
        "css.input.fontSizeClamped" ≠ some JSVal.vNull := by
  exact ⟨rfl, by decide⟩

/-- **C5** (amended): on every change to the ref path — if the source value
is missing (`undefined`/`null`), nothing is written; if it is present but
fails to parse as a length, the raw source value is written to the target
unchanged; otherwise the numeric value is clamped to `[min, max]` where each
bound applies only if its unit equals the source's unit exactly
(mismatched-unit bounds are silently skipped), formatted and written in the
source's unit.  `min`/`max` are parsed once at registration
(`parseLength(min)`, `parseLength(max)`). -/
theorem C5_clamp_per_change (mn mx : Option String)
    (store : List (String × JSVal)) (refPath targetPath : String) :
    (alookup store refPath = none →
      clampRecompute (mn.bind parseLength) (mx.bind parseLength) store
        refPath targetPath = store) ∧
    (alookup store refPath = some JSVal.vNull →
      clampRecompute (mn.bind parseLength) (mx.bind parseLength) store
        refPath targetPath = store) ∧
    (∀ s, alookup store refPath = some (JSVal.vStr s) → parseLength s = none →
      clampRecompute (mn.bind parseLength) (mx.bind parseLength) store
        refPath targetPath = aset store targetPath (JSVal.vStr s)) ∧
    (∀ s v u, alookup store refPath = some (JSVal.vStr s) →
      parseLength s = some (v, u) →
      clampRecompute (mn.bind parseLength) (mx.bind parseLength) store
        refPath targetPath =
        aset store targetPath (JSVal.vStr
          (formatLength (clampSpecVal v u (mn.bind parseLength)
            (mx.bind parseLength)) u))) := by
  refine ⟨?_, ?_, ?_, ?_⟩
  · intro h
    unfold clampRecompute
    rw [h]
  · intro h
    unfold clampRecompute
    rw [h]
  · intro s h1 h2
    unfold clampRecompute
    rw [h1]
    simp only [h2]
  · intro s v u h1 h2
    unfold clampRecompute
    rw [h1]
    simp only [h2]
    have hval : (match mx.bind parseLength with
        | some (xv, xu) => if u = xu then
            min (match mn.bind parseLength with
                 | some (mv, mu) => if u = mu then max v mv else v
                 | none => v) xv
          else (match mn.bind parseLength with
                | some (mv, mu) => if u = mu then max v mv else v
                | none => v)
        | none => (match mn.bind parseLength with
                   | some (mv, mu) => if u = mu then max v mv else v
                   | none => v)) =
        clampSpecVal v u (mn.bind parseLength) (mx.bind parseLength) := by
      unfold clampSpecVal
      rcases mn.bind parseLength with _ | ⟨mv, mu⟩
      · rcases mx.bind parseLength with _ | ⟨xv, xu⟩
        · rfl
        · by_cases hx : xu = u
          · subst hx
            simp
          · have hx' : ¬ u = xu := fun hh => hx hh.symm
            simp [hx, hx']
      · rcases mx.bind parseLength with _ | ⟨xv, xu⟩
        · by_cases hm : mu = u
          · subst hm
            simp
          · have hm' : ¬ u = mu := fun hh => hm hh.symm
            simp [hm, hm']
        · by_cases hm : mu = u
          · subst hm
            by_cases hx : xu = mu
            · subst hx
              simp
            · have hx' : ¬ mu = xu := fun hh => hx hh.symm
              simp [hx, hx']
          · have hm' : ¬ u = mu := fun hh => hm hh.symm
            by_cases hx : xu = u
            · subst hx
              simp [hm, hm']
            · have hx' : ¬ xu = u := hx
              have hx'' : ¬ u = xu := fun hh => hx hh.symm
              simp [hm, hm', hx', hx'']
    rw [hval]

/-- Witness for C5 on the spec scenario shape (integer-valued source to keep
the rational arithmetic transparent): source `5rem`, bounds
`0.75rem`/`2rem`. -/
theorem C5_witness :
    clampRecompute ((some "0.75rem").bind parseLength)
        ((some "2rem").bind parseLength)
        [("css.input.fontSize", JSVal.vStr "5rem")]
        "css.input.fontSize" "css.input.fontSizeClamped" =
      aset [("css.input.fontSize", JSVal.vStr "5rem")]
        "css.input.fontSizeClamped"
        (JSVal.vStr (formatLength (clampSpecVal 5 "rem"
          ((some "0.75rem").bind parseLength)
          ((some "2rem").bind parseLength)) "rem")) := by
  have h := C5_clamp_per_change (some "0.75rem") (some "2rem")
    [("css.input.fontSize", JSVal.vStr "5rem")]
    "css.input.fontSize" "css.input.fontSizeClamped"
  exact h.2.2.2 "5rem" 5 "rem" rfl (by
    show parseLenChars (jsTrim "5rem".data) = some (5, "rem")
    rfl)

/-! ### Contrast theorems (claim C3) -/

/-- **C3**: on every recompute with a truthy, parseable background and both
candidate colors parseable, the contrast relation writes exactly the
candidate selected by the claim's policy (both meet `minRatio` → higher
ratio with ties to `light`; exactly one meets → that one; neither meets →
higher ratio anyway, with the non-fatal warning flag set), and never
throws. -/
theorem C3_contrast_policy (store : List (String × JSVal))
    (targetPath against light dark : String) (minR : ℝ)
    (bgs : String) (bgRgb lRgb dRgb : Nat × Nat × Nat)
    (hbg : alookup store against = some (JSVal.vStr bgs))
    (hbgp : parseColor bgs = some bgRgb)
    (hl : parseColor light = some lRgb)
    (hd : parseColor dark = some dRgb) :
    contrastRecompute store targetPath against light dark minR =
      (aset store targetPath (JSVal.vStr
          (contrastPolicySpec light dark (contrastOf lRgb bgRgb)
            (contrastOf dRgb bgRgb) minR).1),
        (contrastPolicySpec light dark (contrastOf lRgb bgRgb)
          (contrastOf dRgb bgRgb) minR).2) := by
  have hne : bgs ≠ "" := by
    intro h
    subst h
    rw [show parseColor "" = none from rfl] at hbgp
    cases hbgp
  have htruthy : (JSVal.vStr bgs).truthy = true := by
    simp [JSVal.truthy, hne]
  have hselpol : ∀ lr dr : ℝ,
      contrastSelect light dark lr dr minR =
        contrastPolicySpec light dark lr dr minR := by
    intro lr dr
    unfold contrastSelect contrastPolicySpec
    have hval : (if lr ≥ dr then light else dark) =
        (if lr < dr then dark else light) := by
      by_cases h : lr < dr
      · rw [if_neg (not_le.mpr h), if_pos h]
      · rw [if_pos (not_lt.mp h), if_neg h]
    by_cases h1 : lr ≥ minR ∧ dr ≥ minR
    · rw [if_pos h1, if_pos (show minR ≤ lr ∧ minR ≤ dr from h1), hval]
    · rw [if_neg h1, if_neg (show ¬ (minR ≤ lr ∧ minR ≤ dr) from h1)]
      by_cases h2 : lr ≥ minR
      · rw [if_pos h2, if_pos h2]
      · rw [if_neg h2, if_neg h2]
        by_cases h3 : dr ≥ minR
        · rw [if_pos h3, if_pos h3]
        · rw [if_neg h3, if_neg h3, hval]
  unfold contrastRecompute contrastCompute
  rw [hbg]
  simp only [htruthy, Bool.not_eq_true, if_neg]
  have htostr : (JSVal.vStr bgs).toStr = bgs := rfl
  rw [htostr, hbgp]
  simp [hl, hd, hselpol]

/-- Witness for C3 on the spec scenario: black background, white/dark
candidates, default 4.5 ratio. -/
theorem C3_witness :
    contrastRecompute [("css.card.background", JSVal.vStr "#000000")]
        "css.card.color" "css.card.background" "#ffffff" "#1e293b" 4.5 =
      (aset [("css.card.background", JSVal.vStr "#000000")] "css.card.color"
          (JSVal.vStr (contrastPolicySpec "#ffffff" "#1e293b"
            (contrastOf (255, 255, 255) (0, 0, 0))
            (contrastOf (30, 41, 59) (0, 0, 0)) 4.5).1),
        (contrastPolicySpec "#ffffff" "#1e293b"
          (contrastOf (255, 255, 255) (0, 0, 0))
          (contrastOf (30, 41, 59) (0, 0, 0)) 4.5).2) := by
  exact C3_contrast_policy [("css.card.background", JSVal.vStr "#000000")]
    "css.card.color" "css.card.background" "#ffffff" "#1e293b" 4.5
    "#000000" (0, 0, 0) (255, 255, 255) (30, 41, 59)
    rfl (by decide) (by decide) (by decide)

/-! ### Digit-string lemmas (towards claim C9) -/

theorem dchar_digitVal (d : Nat) (h : d < 10) : digitVal (dchar d) = d := by
  interval_cases d <;> rfl

theorem dchar_isDigit (d : Nat) (h : d < 10) : (dchar d).isDigit = true := by
  interval_cases d <;> rfl

theorem dchar_ne_dash (d : Nat) (h : d < 10) : (dchar d = '-') = False := by
  interval_cases d <;> simp <;> decide

theorem dchar_ne_dot (d : Nat) (h : d < 10) : (dchar d = '.') = False := by
  interval_cases d <;> simp <;> decide

theorem dchar_not_ws (d : Nat) (h : d < 10) : isWsChar (dchar d) = false := by
  interval_cases d <;> rfl

theorem dchar_eq_zero_iff (d : Nat) (h : d < 10) : dchar d = '0' ↔ d = 0 := by
  interval_cases d <;> simp <;> decide

theorem charsToNat_map_dchar_aux (D : List Nat) (hD : ∀ d ∈ D, d < 10)
    (acc : Nat) :
    (D.map dchar).foldl (fun a c => 10 * a + digitVal c) acc =
      acc * 10 ^ D.length + Nat.ofDigits 10 D.reverse := by
  induction D generalizing acc with
  | nil => simp
  | cons d rest ih =>
      simp only [List.map_cons, List.foldl_cons, List.reverse_cons,
        List.length_cons]
      rw [ih (fun x hx => hD x (List.mem_cons_of_mem d hx)),
        dchar_digitVal d (hD d (List.mem_cons_self d rest)),
        Nat.ofDigits_append]
      simp only [Nat.ofDigits_singleton, List.length_reverse]
      ring

theorem charsToNat_map_dchar (D : List Nat) (hD : ∀ d ∈ D, d < 10) :
    charsToNat (D.map dchar) = Nat.ofDigits 10 D.reverse := by
  unfold charsToNat
  rw [charsToNat_map_dchar_aux D hD 0]
  simp

theorem charsToNat_natToCharsRaw (n : Nat) : charsToNat (natToCharsRaw n) = n := by
  unfold natToCharsRaw
  rw [charsToNat_map_dchar _
    (fun d hd => Nat.digits_lt_base (by norm_num) (List.mem_reverse.mp hd)),
    List.reverse_reverse, Nat.ofDigits_digits]

theorem natToCharsRaw_digits (n : Nat) :
    ∀ c ∈ natToCharsRaw n, c.isDigit = true := by
  intro c hc
  unfold natToCharsRaw at hc
  obtain ⟨d, hd, rfl⟩ := List.mem_map.mp hc
  exact dchar_isDigit d (Nat.digits_lt_base (by norm_num) (List.mem_reverse.mp hd))

theorem takeDigits_append (A B : List Char) (hA : ∀ c ∈ A, c.isDigit = true)
    (hB : (B.headD ' ').isDigit = false) : takeDigits (A ++ B) = (A, B) := by
  induction A with
  | nil =>
      cases B with
      | nil => rfl
      | cons c r =>
          simp only [List.headD_cons] at hB
          simp [takeDigits, hB]
  | cons a A' ih =>
      simp only [List.cons_append, takeDigits, hA a (List.mem_cons_self a A'),
        if_true]
      rw [show A'.append B = A' ++ B from rfl,
        ih (fun c hc => hA c (List.mem_cons_of_mem a hc))]

theorem ofDigits_replicate_zero (j : Nat) :
    Nat.ofDigits 10 (List.replicate j 0) = 0 := by
  induction j with
  | zero => rfl
  | succ j ih => simp [List.replicate_succ, Nat.ofDigits_cons, ih]

theorem ofDigits_rev_append_zeros (D : List Nat) (j : Nat) :
    Nat.ofDigits 10 ((D ++ List.replicate j 0).reverse) =
      10 ^ j * Nat.ofDigits 10 D.reverse := by
  rw [List.reverse_append, List.reverse_replicate, Nat.ofDigits_append,
    ofDigits_replicate_zero, List.length_replicate]
  ring

theorem digits_len_le_of_lt_pow (n m : Nat) (h : n < 10 ^ m) :
    (Nat.digits 10 n).length ≤ m := by
  by_cases hn : n = 0
  · subst hn
    simp
  · rw [Nat.digits_len 10 n (by norm_num) hn]
    have := Nat.log_lt_of_lt_pow hn h
    omega

theorem charsToNat_natToChars (n : Nat) : charsToNat (natToChars n) = n := by
  unfold natToChars
  by_cases h : n = 0
  · subst h
    rfl
  · rw [if_neg h]
    exact charsToNat_natToCharsRaw n

theorem natToChars_digits (n : Nat) : ∀ c ∈ natToChars n, c.isDigit = true := by
  unfold natToChars
  by_cases h : n = 0
  · subst h
    intro c hc
    rw [if_pos rfl] at hc
    rw [List.mem_singleton.mp hc]
    rfl
  · rw [if_neg h]
    exact natToCharsRaw_digits n

theorem natToChars_ne_nil (n : Nat) : natToChars n ≠ [] := by
  unfold natToChars
  by_cases h : n = 0
  · simp [h]
  · rw [if_neg h]
    unfold natToCharsRaw
    simp [Nat.digits_ne_nil_iff_ne_zero.mpr h]

/-- Left-padding a value's digit string back to the length of a digit list
recovers the digit list (restoring leading zeros). -/
theorem pad_natToCharsRaw (D : List Nat) (hD : ∀ d ∈ D, d < 10) :
    padLeftZeros D.length (natToCharsRaw (Nat.ofDigits 10 D.reverse)) =
      D.map dchar := by
  induction D with
  | nil => simp [padLeftZeros, natToCharsRaw]
  | cons d rest ih =>
      by_cases hd0 : d = 0
      · subst hd0
        have hval : Nat.ofDigits 10 ((0 :: rest).reverse) =
            Nat.ofDigits 10 rest.reverse := by
          rw [List.reverse_cons, Nat.ofDigits_append]
          simp
        have hrest : ∀ x ∈ rest, x < 10 :=
          fun x hx => hD x (List.mem_cons_of_mem 0 hx)
        have hMlt : Nat.ofDigits 10 rest.reverse < 10 ^ rest.length := by
          have := Nat.ofDigits_lt_base_pow_length (l := rest.reverse)
            (by norm_num) (fun x hx => hrest x (List.mem_reverse.mp hx))
          rwa [List.length_reverse] at this
        have hlen : (natToCharsRaw (Nat.ofDigits 10 rest.reverse)).length ≤
            rest.length := by
          unfold natToCharsRaw
          rw [List.length_map, List.length_reverse]
          exact digits_len_le_of_lt_pow _ _ hMlt
        rw [List.length_cons, hval]
        unfold padLeftZeros
        rw [show rest.length + 1 -
            (natToCharsRaw (Nat.ofDigits 10 rest.reverse)).length =
            (rest.length - (natToCharsRaw (Nat.ofDigits 10 rest.reverse)).length)
              + 1 by omega]
        rw [List.replicate_succ]
        have hih := ih hrest
        unfold padLeftZeros at hih
        simp only [List.cons_append, hih, List.map_cons]
        rfl
      · have hL : Nat.digits 10 (Nat.ofDigits 10 (rest.reverse ++ [d])) =
            rest.reverse ++ [d] := by
          apply Nat.digits_ofDigits 10 (by norm_num)
          · intro x hx
            rcases List.mem_append.mp hx with hx | hx
            · exact hD x (List.mem_cons_of_mem d (List.mem_reverse.mp hx))
            · rw [List.mem_singleton.mp hx]
              exact hD d (List.mem_cons_self d rest)
          · intro hne
            simp [List.getLast_append, hd0]
        rw [List.length_cons]
        unfold natToCharsRaw
        rw [List.reverse_cons, hL, List.reverse_append, List.reverse_reverse]
        simp only [List.reverse_cons, List.reverse_nil, List.nil_append,
          List.singleton_append]
        unfold padLeftZeros
        rw [List.length_map, List.length_cons]
        simp [List.map_cons]

theorem dropWhile_replicate_zero_append (j : Nat) (X : List Char) :
    List.dropWhile (fun c => c = '0') (List.replicate j '0' ++ X) =
      List.dropWhile (fun c => c = '0') X := by
  induction j with
  | zero => rfl
  | succ j ih =>
      rw [List.replicate_succ, List.cons_append, List.dropWhile_cons]
      simp only [decide_True, if_true]
      exact ih

theorem stripTrailingZeros_append_zeros (A : List Char) (j : Nat) :
    stripTrailingZeros (A ++ List.replicate j '0') = stripTrailingZeros A := by
  unfold stripTrailingZeros
  rw [List.reverse_append, List.reverse_replicate,
    dropWhile_replicate_zero_append]

theorem stripTrailingZeros_of_getLast_ne (A : List Char)
    (h : ∀ hne : A ≠ [], A.getLast hne ≠ '0') : stripTrailingZeros A = A := by
  unfold stripTrailingZeros
  cases hA : A.reverse with
  | nil =>
      have hA' : A = [] := by
        have := congrArg List.reverse hA
        rwa [List.reverse_reverse, List.reverse_nil] at this
      subst hA'
      rfl
  | cons c r =>
      have hAne : A ≠ [] := by
        intro hh
        subst hh
        simp at hA
      have hc : c = A.getLast hAne := by
        have h1 := List.head?_reverse A
        rw [hA, List.getLast?_eq_getLast A hAne] at h1
        exact Option.some.inj h1
      have hcne : ¬ c = '0' := by
        rw [hc]
        exact h hAne
      rw [List.dropWhile_cons]
      simp only [hcne, decide_False, Bool.false_eq_true, if_false]
      rw [← hA, List.reverse_reverse]

theorem isDigit_ne_dash (c : Char) (h : c.isDigit = true) : ¬ c = '-' := by
  intro hh
  subst hh
  exact absurd h (by decide)

theorem isDigit_not_ws (c : Char) (h : c.isDigit = true) : isWsChar c = false := by
  by_contra hw
  have hw' : isWsChar c = true := by
    cases hv : isWsChar c
    · exact absurd hv hw
    · rfl
  unfold isWsChar at hw'
  simp only [Bool.or_eq_true, decide_eq_true_eq] at hw'
  rcases hw' with ((((h1 | h1) | h1) | h1) | h1) | h1 <;>
    (subst h1; exact absurd h (by decide))

/-- Facts about every unit string: non-empty, first character neither a
digit nor a dot, and no whitespace characters. -/
theorem units_facts : ∀ u ∈ UNITS, u.data ≠ [] ∧
    (u.data.headD ' ').isDigit = false ∧ ¬ (u.data.headD ' ') = '.' ∧
    ∀ c ∈ u.data, isWsChar c = false := by
  decide

theorem dropWhile_eq_self_of_all_false (p : Char → Bool) (l : List Char)
    (h : ∀ c ∈ l, p c = false) : l.dropWhile p = l := by
  cases l with
  | nil => rfl
  | cons c r =>
      rw [List.dropWhile_cons, h c (List.mem_cons_self c r)]
      simp

theorem jsTrim_eq_self (l : List Char) (h : ∀ c ∈ l, isWsChar c = false) :
    jsTrim l = l := by
  unfold jsTrim
  rw [dropWhile_eq_self_of_all_false _ l h,
    dropWhile_eq_self_of_all_false _ l.reverse
      (fun c hc => h c (List.mem_reverse.mp hc)),
    List.reverse_reverse]

/-- The sign and integer-digit steps of the parser on a rendered literal
whose tail starts with a non-digit character. -/
theorem parseLenChars_steps (neg : Bool) (ip : Nat) (c : Char) (r : List Char)
    (hc : c.isDigit = false) :
    parseLenChars ((if neg then ['-'] else []) ++ natToChars ip ++ (c :: r)) =
      (if c = '.' then
         if (takeDigits r).1 = [] then none
         else
           if String.mk (takeDigits r).2 ∈ UNITS then
             some ((if neg then
                 -((ip : ℚ) + (charsToNat (takeDigits r).1 : ℚ) /
                   ((10 : ℚ) ^ (takeDigits r).1.length))
               else
                 (ip : ℚ) + (charsToNat (takeDigits r).1 : ℚ) /
                   ((10 : ℚ) ^ (takeDigits r).1.length)),
               String.mk (takeDigits r).2)
           else none
       else
         if String.mk (c :: r) ∈ UNITS then
           some ((if neg then -(ip : ℚ) else (ip : ℚ)), String.mk (c :: r))
         else none) := by
  have hT : ((c :: r).headD ' ').isDigit = false := by
    rw [List.headD_cons]
    exact hc
  have hsplit1 : takeDigits (natToChars ip ++ (c :: r)) =
      (natToChars ip, c :: r) :=
    takeDigits_append _ _ (natToChars_digits ip) hT
  obtain ⟨a, A, hA⟩ : ∃ a A, natToChars ip = a :: A := by
    cases hAc : natToChars ip with
    | nil => exact absurd hAc (natToChars_ne_nil ip)
    | cons a A => exact ⟨a, A, rfl⟩
  have ha : a.isDigit = true := by
    apply natToChars_digits ip
    rw [hA]
    exact List.mem_cons_self a A
  have hss : splitSign ((if neg then ['-'] else []) ++
      (natToChars ip ++ (c :: r))) = (neg, natToChars ip ++ (c :: r)) := by
    cases neg with
    | true => rfl
    | false =>
        simp only [Bool.false_eq_true, if_false, List.nil_append]
        rw [hA, List.cons_append]
        simp only [splitSign]
        rw [if_neg (isDigit_ne_dash a ha)]
  simp only [List.append_assoc]
  unfold parseLenChars
  simp only [hss, hsplit1, charsToNat_natToChars]
  rw [if_neg (natToChars_ne_nil ip)]

/-- Parsing a canonically rendered literal recovers its components. -/
theorem parseLenChars_render (neg : Bool) (ip : Nat) (fr : List Nat)
    (u : String) (hu : u ∈ UNITS) (hfr : ∀ d ∈ fr, d < 10) :
    parseLenChars ((if neg then ['-'] else []) ++ natToChars ip ++
        (if fr = [] then [] else '.' :: fr.map dchar) ++ u.data) =
      some ((if neg then -(1 : ℚ) else 1) *
        ((ip : ℚ) + ((Nat.ofDigits 10 fr.reverse : ℕ) : ℚ) /
          (10 : ℚ) ^ fr.length), u) := by
  obtain ⟨hu1, hu2, hu3, _⟩ := units_facts u hu
  by_cases hfe : fr = []
  · subst hfe
    rw [if_pos rfl, List.append_nil]
    obtain ⟨c, r, hcr⟩ : ∃ c r, u.data = c :: r := by
      cases hc : u.data with
      | nil => exact absurd hc hu1
      | cons c r => exact ⟨c, r, rfl⟩
    rw [hcr] at hu2 hu3
    simp only [List.headD_cons] at hu2 hu3
    rw [hcr]
    rw [parseLenChars_steps neg ip c r hu2]
    rw [if_neg hu3]
    rw [show String.mk (c :: r) = u from by rw [← hcr]]
    rw [if_pos hu]
    cases neg <;> simp
  · rw [if_neg hfe]
    rw [show (if neg then ['-'] else []) ++ natToChars ip ++
        ('.' :: fr.map dchar) ++ u.data =
        (if neg then ['-'] else []) ++ natToChars ip ++
        ('.' :: (fr.map dchar ++ u.data)) from by
      simp [List.append_assoc]]
    rw [parseLenChars_steps neg ip '.' (fr.map dchar ++ u.data) (by decide)]
    rw [if_pos (show ('.' : Char) = '.' from rfl)]
    have hsplit2 : takeDigits (fr.map dchar ++ u.data) =
        (fr.map dchar, u.data) :=
      takeDigits_append _ _
        (fun c hc => by
          obtain ⟨d, hd, rfl⟩ := List.mem_map.mp hc
          exact dchar_isDigit d (hfr d hd)) hu2
    simp only [hsplit2]
    rw [if_neg (fun hh => hfe (List.map_eq_nil_iff.mp hh))]
    rw [show String.mk u.data = u from rfl, if_pos hu]
    rw [charsToNat_map_dchar fr hfr, List.length_map]
    cases neg <;> simp

/-- Formatting the parsed value of a canonical literal reproduces the
literal. -/
theorem formatLength_render (neg : Bool) (ip : Nat) (fr : List Nat)
    (u : String) (hfr : ∀ d ∈ fr, d < 10) (hk : fr.length ≤ 4)
    (hlast : ∀ hne : fr ≠ [], fr.getLast hne ≠ 0)
    (hneg : neg = true → ¬(ip = 0 ∧ fr = [])) :
    formatLength ((if neg then -(1 : ℚ) else 1) *
        ((ip : ℚ) + ((Nat.ofDigits 10 fr.reverse : ℕ) : ℚ) /
          (10 : ℚ) ^ fr.length)) u =
      String.mk ((if neg then ['-'] else []) ++ natToChars ip ++
        (if fr = [] then [] else '.' :: fr.map dchar) ++ u.data) := by
  set k := fr.length with hkdef
  set fv : Nat := Nat.ofDigits 10 fr.reverse with hfv
  set j := 4 - k with hj
  have hjk : k + j = 4 := by omega
  have hfvlt : fv < 10 ^ k := by
    have := Nat.ofDigits_lt_base_pow_length (l := fr.reverse) (by norm_num)
      (fun x hx => hfr x (List.mem_reverse.mp hx))
    rwa [List.length_reverse] at this
  set E := ip * 10 ^ 4 + 10 ^ j * fv with hE
  have hfplt : 10 ^ j * fv < 10 ^ 4 := by
    calc 10 ^ j * fv < 10 ^ j * 10 ^ k :=
          mul_lt_mul_of_pos_left hfvlt (pow_pos (by norm_num) j)
      _ = 10 ^ 4 := by rw [← pow_add, Nat.add_comm, hjk]
  have hcast : ((ip : ℚ) + (fv : ℚ) / (10 : ℚ) ^ k) * 10000 = ((E : Nat) : ℚ) := by
    have h10k : ((10 : ℚ)) ^ k ≠ 0 := by positivity
    have h4 : (10000 : ℚ) = (10 : ℚ) ^ k * (10 : ℚ) ^ j := by
      rw [← pow_add, hjk]
      norm_num
    rw [hE]
    push_cast
    rw [h4]
    field_simp
    ring
  have hround : round (((if neg then -(1 : ℚ) else 1) *
      ((ip : ℚ) + (fv : ℚ) / (10 : ℚ) ^ k)) * 10000) =
      (if neg then -(E : ℤ) else (E : ℤ)) := by
    cases neg with
    | false =>
        simp only [Bool.false_eq_true, if_false, one_mul]
        rw [hcast, show ((E : Nat) : ℚ) = (((E : ℤ)) : ℚ) by push_cast; ring,
          round_intCast]
    | true =>
        simp only [if_true]
        rw [show -(1 : ℚ) * ((ip : ℚ) + (fv : ℚ) / (10 : ℚ) ^ k) * 10000 =
          -(((ip : ℚ) + (fv : ℚ) / (10 : ℚ) ^ k) * 10000) by ring]
        rw [hcast, show -((E : Nat) : ℚ) = ((-(E : ℤ) : ℤ) : ℚ) by push_cast; ring,
          round_intCast]
  have hEpos : neg = true → 0 < E := by
    intro hn
    by_cases hip : ip = 0
    · have hfrne : fr ≠ [] := fun hh => (hneg hn) ⟨hip, hh⟩
      have hfv0 : fv ≠ 0 := by
        intro h0
        have hall := Nat.digits_zero_of_eq_zero (by norm_num) h0
        have hmem : fr.getLast hfrne ∈ fr.reverse :=
          List.mem_reverse.mpr (List.getLast_mem hfrne)
        exact hlast hfrne (hall _ hmem)
      have hpos : 0 < 10 ^ j * fv :=
        Nat.mul_pos (pow_pos (by norm_num) j) (Nat.pos_of_ne_zero hfv0)
      exact Nat.lt_of_lt_of_le hpos (Nat.le_add_left _ _)
    · have hpos : 0 < ip * 10 ^ 4 :=
        Nat.mul_pos (Nat.pos_of_ne_zero hip) (by norm_num)
      exact Nat.lt_of_lt_of_le hpos (Nat.le_add_right _ _)
  have hEd : E / 10 ^ 4 = ip := by
    rw [hE, Nat.add_comm, Nat.add_mul_div_right _ _ (by norm_num : 0 < 10 ^ 4),
      Nat.div_eq_of_lt hfplt, Nat.zero_add]
  have hEm : E % 10 ^ 4 = 10 ^ j * fv := by
    rw [hE, Nat.add_comm, Nat.add_mul_mod_self_right, Nat.mod_eq_of_lt hfplt]
  have hpad : padLeftZeros 4 (natToCharsRaw (10 ^ j * fv)) =
      (fr ++ List.replicate j 0).map dchar := by
    have hlen4 : (fr ++ List.replicate j 0).length = 4 := by
      rw [List.length_append, List.length_replicate]
      omega
    have hdig : ∀ d ∈ fr ++ List.replicate j 0, d < 10 := by
      intro d hd
      rcases List.mem_append.mp hd with h | h
      · exact hfr d h
      · rw [List.eq_of_mem_replicate h]
        norm_num
    have hp := pad_natToCharsRaw (fr ++ List.replicate j 0) hdig
    rw [hlen4, ofDigits_rev_append_zeros, ← hfv] at hp
    exact hp
  have hstrip : stripTrailingZeros ((fr ++ List.replicate j 0).map dchar) =
      fr.map dchar := by
    rw [List.map_append, List.map_replicate, show dchar 0 = '0' from rfl,
      stripTrailingZeros_append_zeros]
    apply stripTrailingZeros_of_getLast_ne
    intro hne
    have hfrne : fr ≠ [] := fun hh => hne (by simp [hh])
    have h1 : (fr.map dchar).getLast? = some (dchar (fr.getLast hfrne)) := by
      rw [List.getLast?_map, List.getLast?_eq_getLast fr hfrne]
      rfl
    have h2 : (fr.map dchar).getLast hne = dchar (fr.getLast hfrne) := by
      have h3 := List.getLast?_eq_getLast (fr.map dchar) hne
      rw [h1] at h3
      exact (Option.some.inj h3).symm
    rw [h2]
    intro hcon
    rw [dchar_eq_zero_iff _ (hfr _ (List.getLast_mem hfrne))] at hcon
    exact hlast hfrne hcon
  have hsign : (if (if neg then -(E : ℤ) else (E : ℤ)) < 0 then ['-']
      else ([] : List Char)) = (if neg then ['-'] else []) := by
    cases hn : neg with
    | false =>
        simp only [Bool.false_eq_true, if_false]
        rw [if_neg (not_lt.mpr (Int.natCast_nonneg E))]
    | true =>
        simp only [if_true]
        rw [if_pos (by
          rw [neg_lt_zero]
          exact_mod_cast hEpos hn)]
  have hnatAbs : (if neg then -(E : ℤ) else (E : ℤ)).natAbs = E := by
    cases neg <;> simp
  unfold formatLength
  rw [hround]
  unfold decimalOfInt
  simp only [hnatAbs, hEd, hEm, hpad, hstrip, hsign]
  rw [show ∀ (l : List Char) (s : String),
    String.mk l ++ s = String.mk (l ++ s.data) from fun _ _ => rfl]
  congr 1
  by_cases hfe : fr = []
  · subst hfe
    simp
  · rw [if_neg (fun hh => hfe (List.map_eq_nil_iff.mp hh)), if_neg hfe]

/-- A canonically rendered length literal contains no whitespace
characters, so trimming leaves it unchanged. -/
theorem renderLit_no_ws (neg : Bool) (ip : Nat) (fr : List Nat) (u : String)
    (hu : u ∈ UNITS) (hfr : ∀ d ∈ fr, d < 10) :
    ∀ c ∈ (if neg then ['-'] else []) ++ natToChars ip ++
      (if fr = [] then [] else '.' :: fr.map dchar) ++ u.data,
      isWsChar c = false := by
  intro c hc
  rcases List.mem_append.mp hc with h | h
  · rcases List.mem_append.mp h with h2 | h2
    · rcases List.mem_append.mp h2 with h3 | h3
      · cases neg with
        | true =>
            simp only [if_true, List.mem_singleton] at h3
            subst h3
            decide
        | false => simp at h3
      · exact isDigit_not_ws c (natToChars_digits ip c h3)
    · by_cases hfe : fr = []
      · rw [if_pos hfe] at h2
        simp at h2
      · rw [if_neg hfe] at h2
        rcases List.mem_cons.mp h2 with h3 | h3
        · subst h3
          decide
        · obtain ⟨d, hd, hdc⟩ := List.mem_map.mp h3
          rw [← hdc]
          exact isDigit_not_ws _ (dchar_isDigit d (hfr d hd))
  · exact (units_facts u hu).2.2.2 c h

/-- C9 (amended): for every CANONICAL well-formed length literal - optional
minus sign, integer part without leading zeros, optional fractional part of
at most 4 digits with no trailing zero, no negative zero, and a unit from
the length-unit grammar - parseLength recovers a numeric value together
with the literal unit, and formatLength on that pair reproduces the
literal exactly.  The claim as stated, over ALL well-formed literals,
fails: trailing fractional zeros are not reproduced (see the
counterexample). -/
theorem C9_roundtrip (neg : Bool) (ip : Nat) (fr : List Nat) (u : String)
    (hu : u ∈ UNITS) (hfr : ∀ d ∈ fr, d < 10) (hk : fr.length ≤ 4)
    (hlast : ∀ hne : fr ≠ [], fr.getLast hne ≠ 0)
    (hneg : neg = true → ¬(ip = 0 ∧ fr = [])) :
    ∃ v : ℚ, parseLength (renderLit neg ip fr u) = some (v, u) ∧
      formatLength v u = renderLit neg ip fr u := by
  refine ⟨(if neg then -(1 : ℚ) else 1) *
    ((ip : ℚ) + ((Nat.ofDigits 10 fr.reverse : ℕ) : ℚ) /
      (10 : ℚ) ^ fr.length), ?_, ?_⟩
  · show parseLenChars (jsTrim (renderLit neg ip fr u).data) = _
    rw [show (renderLit neg ip fr u).data =
      (if neg then ['-'] else []) ++ natToChars ip ++
        (if fr = [] then [] else '.' :: fr.map dchar) ++ u.data from rfl]
    rw [jsTrim_eq_self _ (renderLit_no_ws neg ip fr u hu hfr)]
    exact parseLenChars_render neg ip fr u hu hfr
  · exact formatLength_render neg ip fr u hfr hk hlast hneg

/-- Witness for C9: the canonical literal 2px round-trips: parseLength
yields (2, px) and formatLength (2, px) is 2px again. -/
theorem C9_witness :
    ∃ v : ℚ, parseLength (renderLit false 2 [] "px") = some (v, "px") ∧
      formatLength v "px" = renderLit false 2 [] "px" :=
  C9_roundtrip false 2 [] "px" (by decide) (by decide) (by decide)
    (by decide) (by decide)

/-- C9 counterexample: the literal 1.50px is well-formed with a 2-digit
fraction, but formatting its parsed value yields 1.5px, not 1.50px: the
JS number-to-string rendering drops trailing fractional zeros, so the
round-trip is not the identity on non-canonical literals. -/
theorem C9_counterexample :
    ∃ v u, parseLength (String.mk ['1', '.', '5', '0', 'p', 'x']) =
        some (v, u) ∧
      formatLength v u ≠ String.mk ['1', '.', '5', '0', 'p', 'x'] := by
  have hd1 : Nat.digits 10 1 = [1] := by
    rw [Nat.digits_def' (by norm_num : 1 < 10) (by norm_num : 0 < 1)]
    norm_num
  have hnc : natToChars 1 = ['1'] := by
    unfold natToChars natToCharsRaw
    rw [if_neg (by norm_num : (1 : ℕ) ≠ 0), hd1]
    rfl
  refine ⟨(3 : ℚ) / 2, "px", ?_, ?_⟩
  · have h := parseLenChars_render false 1 [5, 0] "px" (by decide) (by decide)
    rw [show (if (false : Bool) then ['-'] else []) ++ natToChars 1 ++
        (if ([5, 0] : List Nat) = [] then [] else
          '.' :: ([5, 0] : List Nat).map dchar) ++ ("px" : String).data =
        ['1', '.', '5', '0', 'p', 'x'] from by rw [hnc]; rfl] at h
    show parseLenChars (jsTrim (String.mk ['1', '.', '5', '0', 'p', 'x']).data) = _
    rw [show jsTrim (String.mk ['1', '.', '5', '0', 'p', 'x']).data =
      ['1', '.', '5', '0', 'p', 'x'] from rfl]
    rw [h]
    norm_num [Nat.ofDigits_cons, Nat.ofDigits_nil]
  · have h2 := formatLength_render false 1 [5] "px" (by decide) (by decide)
      (fun hne => by show (5 : ℕ) ≠ 0; decide) (by decide)
    have hv : (if (false : Bool) then -(1 : ℚ) else 1) *
        (((1 : ℕ) : ℚ) + ((Nat.ofDigits 10 ([5] : List Nat).reverse : ℕ) : ℚ) /
          (10 : ℚ) ^ ([5] : List Nat).length) = (3 : ℚ) / 2 := by
      norm_num [Nat.ofDigits_cons, Nat.ofDigits_nil]
    rw [hv] at h2
    rw [h2, hnc]
    decide

end EveryStateCSS
